import Mathlib

/-!
Verification of the Monte-Carlo entropy benchmark driver of pyclits
(src/pyclits/entropy_calculation_test.py).

The drivers `complete_test_1D` and `complete_test_ND` are embedded as pure
state-passing functions, polymorphic in the numeric scalar type `V` (the
Python code computes with floats; instantiating `V := ℚ` gives executable
runs, instantiating `V := ℝ` gives the analytic statements) and in the
sample-data type `δ` (the driver never inspects sample matrices, it only
hands them to the injected estimator).  External effects are embedded
explicitly:

* the report file is a list of completed `lines` plus the current partial
  line `cur` (mirroring `print(..., file=fd, end="")` vs `print(..., file=fd)`);
* `time.process_time()` is an abstract read-only stream `ptime : ℕ → V`,
  consumed two reads per trial;
* the pseudo-random sample generator receives the ordinal of the trial that
  draws from it (each Python call advances the hidden RNG state);
* Python dicts are insertion-ordered association lists;
* NumPy aggregation of an empty list yields NaN (not an exception), embedded
  as `Option` with `none` standing for NaN;
* estimator invocations are logged (`callLog`) so that iteration-order
  claims about the index-set passes are statable.
-/

namespace Pyclits

/-! ### Insertion-ordered dictionaries (Python `dict` with tuple keys) -/

/-- Python dict assignment `d[k] = a`: updates the value in place if the key
is present (keeping its insertion position), otherwise appends the new key at
the end, as Python dicts preserve insertion order. -/
def dictSet {K A : Type} [DecidableEq K] : List (K × A) → K → A → List (K × A)
  | [], k, a => [(k, a)]
  | (k', a') :: rest, k, a =>
      if k' = k then (k, a) :: rest else (k', a') :: dictSet rest k a

/-- Python dict lookup with a default value. -/
def dictGetD {K A : Type} [DecidableEq K] : List (K × A) → K → A → A
  | [], _, d => d
  | (k', a') :: rest, k, d => if k' = k then a' else dictGetD rest k d

/-- Python `d[k].append(v)` for a dict of lists (the key is always present
when the driver appends, having been initialised to `[]`). -/
def dictAppend {K A : Type} [DecidableEq K] (d : List (K × List A)) (k : K) (v : A) :
    List (K × List A) :=
  dictSet d k (dictGetD d k [] ++ [v])

/-! ### NumPy / SciPy aggregation semantics

`np.mean`, `np.std` (population convention) and `scipy.stats.moment(·, moment=3)`
are third-party library calls; they are embedded by their documented
semantics.  On an empty input NumPy emits a warning and returns NaN rather
than raising; NaN is represented by `none`. -/

/-- Arithmetic mean, `np.mean`; `none` is NaN (empty input). -/
def np_mean {V : Type} [Field V] (xs : List V) : Option V :=
  if xs.length = 0 then none else some (xs.sum / (xs.length : V))

/-- Population standard deviation, `np.std`; the square root of the scalar
type is supplied explicitly. -/
def np_std {V : Type} [Field V] (sqrtV : V → V) (xs : List V) : Option V :=
  match np_mean xs with
  | none => none
  | some m => some (sqrtV ((xs.map (fun x => (x - m) ^ 2)).sum / (xs.length : V)))

/-- Third central moment, `scipy.stats.moment(xs, moment=3)`. -/
def stat_moment3 {V : Type} [Field V] (xs : List V) : Option V :=
  match np_mean xs with
  | none => none
  | some m => some ((xs.map (fun x => (x - m) ^ 3)).sum / (xs.length : V))

/-- Python string formatting of a possibly-NaN statistic: `str(nan) = "nan"`. -/
def showStat {V : Type} (showV : V → String) : Option V → String
  | none => "nan"
  | some v => showV v

/-! ### String joins used to state the tabular-format claims -/

/-- Fields joined by a tab character. -/
def tabJoin : List String → String
  | [] => ""
  | [a] => a
  | a :: b :: rest => a ++ "\t" ++ tabJoin (b :: rest)

/-- Fields joined by a space character. -/
def spaceJoin : List String → String
  | [] => ""
  | [a] => a
  | a :: b :: rest => a ++ " " ++ spaceJoin (b :: rest)

/-! ### Minimal NumPy matrices (only what the driver touches) -/

/-- A NumPy 2-D array: a shape and an entry function.  The driver only reads
`shape[0]` and scales matrices by a scalar; the matrix itself is merely
forwarded to the injected oracle and generator. -/
structure NPMatrix (V : Type) where
  rows : ℕ
  cols : ℕ
  entry : ℕ → ℕ → V

/-- Scalar multiple `sigma * sigma_skeleton`. -/
def NPMatrix.smul {V : Type} [Mul V] (c : V) (m : NPMatrix V) : NPMatrix V :=
  ⟨m.rows, m.cols, fun i j => c * m.entry i j⟩

/-- Entry-wise sum of two NumPy arrays of the same shape. -/
def NPMatrix.add {V : Type} [Add V] (a b : NPMatrix V) : NPMatrix V :=
  ⟨a.rows, a.cols, fun i j => a.entry i j + b.entry i j⟩

/-- The identity matrix `np.identity(n)`. -/
def np_identity {V : Type} [Zero V] [One V] (n : ℕ) : NPMatrix V :=
  ⟨n, n, fun i j => if i = j then 1 else 0⟩

/-- The shifted unit diagonal `np.eye(n, k=k)`. -/
def np_eye_k {V : Type} [Zero V] [One V] (n : ℕ) (k : ℤ) : NPMatrix V :=
  ⟨n, n, fun i j => if (j : ℤ) = (i : ℤ) + k then 1 else 0⟩

/-! ### The Estimator Adapter return structure

Modelled from the spec: the estimator `mutual_inf.renyi_entropy` lives in the
module `mutual_inf`, which is not part of the provided sources.  Section 6 of
the spec gives its call contract: the returned structure is a mapping keyed
first by alpha and then by the requested index or index set,
`mapping[alpha -> mapping[index_or_index_set -> float]]`.  An inner key is
therefore a single neighbor index (`Sum.inl`) or an index set (`Sum.inr`);
the structure is embedded as a total function on keys. -/
abbrev EstKey : Type := Sum ℕ (List ℕ)

/-- Estimator return structure: alpha, then index-or-index-set, to a float. -/
abbrev EstRet (V : Type) : Type := V → EstKey → V

/-! ### Driver state

One record carries the report file (completed lines plus the partial current
line), the three accumulation dictionaries keyed by
`sample_position = (alpha, size_sample, sigma)`, the number of trials executed
so far (driving the process-time stream and the random-sample stream), the
number of oracle invocations, and the log of index-set arguments of the
estimator invocations. -/
@[ext]
structure NDState (V : Type) where
  lines : List String
  cur : String
  entropy_samples : List ((V × ℕ × V) × List V)
  duration_samples : List ((V × ℕ × V) × List V)
  difference_samples : List ((V × ℕ × V) × List V)
  tIdx : ℕ
  oracleCalls : ℕ
  callLog : List (List ℕ)

/-- The freshly opened report file: `open(filename, "wt")` truncates. -/
def NDState.initial (V : Type) : NDState V :=
  ⟨[], "", [], [], [], 0, 0, []⟩

/-- Embed `print(s, file=fd, end="")`: append to the current partial line. -/
def NDState.fprint {V : Type} (st : NDState V) (s : String) : NDState V :=
  { st with cur := st.cur ++ s }

/-- Embed `print(s, file=fd)`: complete the current line. -/
def NDState.fprintln {V : Type} (st : NDState V) (s : String) : NDState V :=
  { st with lines := st.lines ++ [st.cur ++ s], cur := "" }

/-! ### The multivariate sweep driver `complete_test_ND` -/

/-- Configuration of `complete_test_ND` (its keyword arguments, with the
injected strategies and the two external streams). -/
structure NDParams (V δ : Type) where
  samples : ℕ
  alphas : List V
  mu : V
  sigmas : List V
  sizes_of_sample : List ℕ
  indices_to_use : List ℕ
  theoretical_value_function : NPMatrix V → V → Option V → V
  sample_generator : ℕ → V → NPMatrix V → ℕ → δ
  sample_estimator : δ → List V → List ℕ → EstRet V
  determinant : Option V
  ptime : ℕ → V
  sqrtV : V → V
  showV : V → String

/-- One repeated trial of the N-D driver (the body of
`for sample in range(1, samples + 1)`): generate a sample, read the process
clock, invoke the estimator passing `alpha={alpha}` (a one-element set) and
the current index set, extract `entropy[alpha][0]`, read the clock again,
and append the outcome to the three accumulation lists. -/
def nd_trial {V δ : Type} [Field V] [DecidableEq V] (p : NDParams V δ)
    (msig : NPMatrix V) (theo alpha : V) (size_sample : ℕ)
    (indices_to_use : List ℕ) (pos : V × ℕ × V) (st : NDState V) : NDState V :=
  let data_samples := p.sample_generator st.tIdx p.mu msig size_sample
  let time_start := p.ptime (2 * st.tIdx)
  let entropy := p.sample_estimator data_samples [alpha] indices_to_use
  let entropy_value := entropy alpha (Sum.inl 0)
  let time_end := p.ptime (2 * st.tIdx + 1)
  let duration := time_end - time_start
  let difference := theo - entropy_value
  { st with
    tIdx := st.tIdx + 1
    callLog := st.callLog ++ [indices_to_use]
    entropy_samples := dictAppend st.entropy_samples pos entropy_value
    duration_samples := dictAppend st.duration_samples pos duration
    difference_samples := dictAppend st.difference_samples pos difference }

/-- The repeated-trial loop, iterated `samples` times. -/
def nd_trials {V δ : Type} [Field V] [DecidableEq V] (p : NDParams V δ)
    (msig : NPMatrix V) (theo alpha : V) (size_sample : ℕ)
    (indices_to_use : List ℕ) (pos : V × ℕ × V) :
    ℕ → NDState V → NDState V
  | 0, st => st
  | m + 1, st =>
      nd_trials p msig theo alpha size_sample indices_to_use pos m
        (nd_trial p msig theo alpha size_sample indices_to_use pos st)

/-- One index-set pass of a grid leaf: reset the three accumulation lists of
`sample_position`, run the repeated trials, then write the 7 aggregate
statistics of this pass, each followed by a tab, without a newline. -/
def nd_pass {V δ : Type} [Field V] [DecidableEq V] (p : NDParams V δ)
    (msig : NPMatrix V) (theo sigma alpha : V) (size_sample : ℕ)
    (indices_to_use : List ℕ) (st : NDState V) : NDState V :=
  let pos : V × ℕ × V := (alpha, size_sample, sigma)
  let st := { st with
    entropy_samples := dictSet st.entropy_samples pos []
    duration_samples := dictSet st.duration_samples pos []
    difference_samples := dictSet st.difference_samples pos [] }
  let st := nd_trials p msig theo alpha size_sample indices_to_use pos p.samples st
  st.fprint
    (showStat p.showV (np_mean (dictGetD st.entropy_samples pos [])) ++ "\t" ++
     showStat p.showV (np_std p.sqrtV (dictGetD st.entropy_samples pos [])) ++ "\t" ++
     showStat p.showV (np_mean (dictGetD st.duration_samples pos [])) ++ "\t" ++
     showStat p.showV (np_std p.sqrtV (dictGetD st.duration_samples pos [])) ++ "\t" ++
     showStat p.showV (np_mean (dictGetD st.difference_samples pos [])) ++ "\t" ++
     showStat p.showV (np_std p.sqrtV (dictGetD st.difference_samples pos [])) ++ "\t" ++
     showStat p.showV (stat_moment3 (dictGetD st.difference_samples pos [])) ++ "\t")

/-- One grid leaf `(sigma, alpha, size_sample)`: write the row prefix
(dimension, alpha, sample size, sigma, theoretical value, tab-terminated),
run one pass per entry of `real_indeces`, then terminate the row with
`print("", file=fd, flush=True)`. -/
def nd_leaf {V δ : Type} [Field V] [DecidableEq V] (p : NDParams V δ)
    (msig : NPMatrix V) (dimension : ℕ) (theo sigma alpha : V) (size_sample : ℕ)
    (real_indeces : List (List ℕ)) (st : NDState V) : NDState V :=
  let st := st.fprint
    (toString dimension ++ "\t" ++ p.showV alpha ++ "\t" ++ toString size_sample ++
     "\t" ++ p.showV sigma ++ "\t" ++ p.showV theo ++ "\t")
  let st := real_indeces.foldl
    (fun s indices_to_use => nd_pass p msig theo sigma alpha size_sample indices_to_use s) st
  st.fprintln ""

/-- The body of the `alpha` loop: evaluate the theoretical (oracle) value
once, then iterate over the sample sizes. -/
def nd_alpha {V δ : Type} [Field V] [DecidableEq V] (p : NDParams V δ)
    (msig : NPMatrix V) (dimension : ℕ) (used_determinant : Option V)
    (sigma alpha : V) (real_indeces : List (List ℕ)) (st : NDState V) : NDState V :=
  let theoretical_value := p.theoretical_value_function msig alpha used_determinant
  let st := { st with oracleCalls := st.oracleCalls + 1 }
  p.sizes_of_sample.foldl
    (fun s size_sample =>
      nd_leaf p msig dimension theoretical_value sigma alpha size_sample real_indeces s) st

/-- The sigma adjustment of a precalculated determinant (the Python lines
`used_determinant = determinant` / `if determinant: used_determinant *= ...`):
`None` stays `None`, and a truthy (non-zero) value is multiplied by
`sigma ^ dimension`. -/
def nd_used_det {V δ : Type} [Field V] [DecidableEq V] (p : NDParams V δ)
    (dimension : ℕ) (sigma : V) : Option V :=
  match p.determinant with
  | none => none
  | some d => if d = 0 then some d else some (d * sigma ^ dimension)

/-- The body of the `sigma` loop: scale the skeleton, adjust a precalculated
determinant for sigma when it is truthy (Python `if determinant:`), then
iterate over the alphas. -/
def nd_sigma {V δ : Type} [Field V] [DecidableEq V] (p : NDParams V δ)
    (sigma_skeleton : NPMatrix V) (dimension : ℕ) (sigma : V)
    (real_indeces : List (List ℕ)) (st : NDState V) : NDState V :=
  let matrix_sigma := NPMatrix.smul sigma sigma_skeleton
  let used_determinant := nd_used_det p dimension sigma
  p.alphas.foldl
    (fun s alpha => nd_alpha p matrix_sigma dimension used_determinant sigma alpha real_indeces s) st

/-- The header group of 7 labelled statistic columns written for one
requested neighbor index, tab-terminated. -/
def nd_header_group (index : ℕ) : String :=
  "mean Renyi entropy " ++ toString index ++ "\tstd Renyi entropy " ++ toString index ++
  "\tmean computer time " ++ toString index ++ "\tstd computer time " ++ toString index ++
  "\tmean difference " ++ toString index ++ "\tstd of difference " ++ toString index ++
  "\t3rd moment of difference " ++ toString index ++ "\t"

/-- The final unlabelled header group for the combined index set. -/
def nd_header_tail : String :=
  "mean Renyi entropy\tstd Renyi entropy\tmean computer time\tstd computer time\tmean difference\tstd of difference\t3rd moment of difference"

/-- The multivariate sweep driver `complete_test_ND`.  Reads the dimension
from the skeleton's shape, opens the report file, writes the header while
building `real_indeces` (one singleton per requested index, then the full
requested index tuple appended last), and runs the nested
sigma / alpha / sample-size loops. -/
def complete_test_ND {V δ : Type} [Field V] [DecidableEq V] (p : NDParams V δ)
    (sigma_skeleton : NPMatrix V) : NDState V :=
  let dimension := sigma_skeleton.rows
  let st := (NDState.initial V).fprint "dimension\talpha\tsample size\tsigma\ttheoretical value\t"
  let hdr := p.indices_to_use.foldl
    (fun (sr : NDState V × List (List ℕ)) index =>
      (sr.1.fprint (nd_header_group index), sr.2 ++ [[index]]))
    (st, [])
  let st := hdr.1.fprintln nd_header_tail
  let real_indeces := hdr.2 ++ [p.indices_to_use]
  p.sigmas.foldl
    (fun s sigma => nd_sigma p sigma_skeleton dimension sigma real_indeces s) st

/-! ### The univariate sweep driver `complete_test_1D` -/

/-- Configuration of `complete_test_1D`.  Its estimator returns a plain
float; sigma is a scalar here, not a matrix. -/
structure OneDParams (V δ : Type) where
  samples : ℕ
  alphas : List V
  mu : V
  sigmas : List V
  sizes_of_sample : List ℕ
  theoretical_value_function : V → V → V
  sample_generator : ℕ → V → V → ℕ → δ
  sample_estimator : δ → V → V
  ptime : ℕ → V
  sqrtV : V → V
  showV : V → String

/-- One repeated trial of the 1-D driver. -/
def oned_trial {V δ : Type} [Field V] [DecidableEq V] (p : OneDParams V δ)
    (theo sigma alpha : V) (size_sample : ℕ) (pos : V × ℕ × V)
    (st : NDState V) : NDState V :=
  let data_samples := p.sample_generator st.tIdx p.mu sigma size_sample
  let time_start := p.ptime (2 * st.tIdx)
  let entropy := p.sample_estimator data_samples alpha
  let time_end := p.ptime (2 * st.tIdx + 1)
  let duration := time_end - time_start
  let difference := theo - entropy
  { st with
    tIdx := st.tIdx + 1
    entropy_samples := dictAppend st.entropy_samples pos entropy
    duration_samples := dictAppend st.duration_samples pos duration
    difference_samples := dictAppend st.difference_samples pos difference }

/-- The repeated-trial loop of the 1-D driver. -/
def oned_trials {V δ : Type} [Field V] [DecidableEq V] (p : OneDParams V δ)
    (theo sigma alpha : V) (size_sample : ℕ) (pos : V × ℕ × V) :
    ℕ → NDState V → NDState V
  | 0, st => st
  | m + 1, st =>
      oned_trials p theo sigma alpha size_sample pos m
        (oned_trial p theo sigma alpha size_sample pos st)

/-- One grid cell of the 1-D driver: compute the theoretical value, reset the
accumulation lists, run the repeated trials, then write one space-separated
data line (no header, no third moment, no dimension or theoretical-value
column). -/
def oned_cell {V δ : Type} [Field V] [DecidableEq V] (p : OneDParams V δ)
    (sigma alpha : V) (size_sample : ℕ) (st : NDState V) : NDState V :=
  let pos : V × ℕ × V := (alpha, size_sample, sigma)
  let theoretical_value := p.theoretical_value_function sigma alpha
  let st := { st with oracleCalls := st.oracleCalls + 1 }
  let st := { st with
    entropy_samples := dictSet st.entropy_samples pos []
    duration_samples := dictSet st.duration_samples pos []
    difference_samples := dictSet st.difference_samples pos [] }
  let st := oned_trials p theoretical_value sigma alpha size_sample pos p.samples st
  st.fprintln
    (p.showV alpha ++ " " ++ toString size_sample ++ " " ++ p.showV sigma ++ " " ++
     showStat p.showV (np_mean (dictGetD st.entropy_samples pos [])) ++ " " ++
     showStat p.showV (np_std p.sqrtV (dictGetD st.entropy_samples pos [])) ++ " " ++
     showStat p.showV (np_mean (dictGetD st.duration_samples pos [])) ++ " " ++
     showStat p.showV (np_std p.sqrtV (dictGetD st.duration_samples pos [])) ++ " " ++
     showStat p.showV (np_mean (dictGetD st.difference_samples pos [])) ++ " " ++
     showStat p.showV (np_std p.sqrtV (dictGetD st.difference_samples pos [])))

/-- The univariate sweep driver `complete_test_1D`: nested loops over sigmas,
alphas and sample sizes, one data line per cell, and no header line at all. -/
def complete_test_1D {V δ : Type} [Field V] [DecidableEq V]
    (p : OneDParams V δ) : NDState V :=
  p.sigmas.foldl
    (fun st sigma =>
      p.alphas.foldl
        (fun st alpha =>
          p.sizes_of_sample.foldl
            (fun st size_sample => oned_cell p sigma alpha size_sample st) st) st)
    (NDState.initial V)

/-! ### The command-line program (the `__main__` block) -/

/-- The accepted correlation-matrix types. -/
def correlation_types : List String := ["identity", "weakly_correlated", "strongly_correlated"]

/-- The accepted noise types. -/
def noise_types : List String := ["gaussian", "student", "sub_gaussian"]

/-- Python's `a in b` on strings: substring containment. -/
def py_str_in (a b : String) : Bool := decide (List.IsInfix a.data b.data)

/-- Modelled from the spec: `tridiagonal_matrix_determinant` is imported from
the module `random_samples`, which is not part of the provided sources.
Spec section 4.1: the determinant of the tridiagonal correlation matrix with
unit diagonal and off-diagonal correlation rho obeys the three-term
recurrence `D_n = D_(n-1) - rho^2 * D_(n-2)` with `D_0 = 1, D_1 = 1`. -/
def tridiagonal_matrix_determinant {V : Type} [Field V] : ℕ → V → V
  | 0, _ => 1
  | 1, _ => 1
  | n + 2, rho =>
      tridiagonal_matrix_determinant (n + 1) rho -
        rho ^ 2 * tridiagonal_matrix_determinant n rho

/-- The per-dimension selection of `sigma_skeleton` and `determinant` in the
main block.  The branches test Python substring containment
(`correlation_type in correlation_types[i]`); the strongly correlated branch
leaves the skeleton as `None`. -/
def select_sigma_skeleton {V : Type} [Field V] (correlation_type : String)
    (correlation : V) (dimension : ℕ) : Option (NPMatrix V) × Option V :=
  if py_str_in correlation_type "identity" then
    (some (np_identity dimension), some 1)
  else if py_str_in correlation_type "weakly_correlated" then
    (some ((np_identity dimension).add
        (((np_eye_k dimension 1).smul correlation).add
          ((np_eye_k dimension (-1)).smul correlation))),
     some (tridiagonal_matrix_determinant dimension correlation))
  else if py_str_in correlation_type "strongly_correlated" then
    (none, some ((1 - correlation) ^ dimension * (1 + (dimension : V) * correlation)))
  else (none, none)

/-- The Python exceptions that can escape the main block in the embedded
fragment: `SystemExit(message)` from argument validation, and the
`AttributeError` raised when `complete_test_ND` dereferences
`sigma_skeleton.shape` on `None`. -/
inductive PyErr : Type
  | systemExit (msg : String) : PyErr
  | attributeError : PyErr
deriving DecidableEq

/-- The process exit status resulting from the embedded main block: 0 on
success; `raise SystemExit("...")` exits with status 1, and an uncaught
exception also terminates with a non-zero status. -/
def exit_status {A : Type} : Except PyErr A → ℕ
  | Except.ok _ => 0
  | Except.error (PyErr.systemExit _) => 1
  | Except.error PyErr.attributeError => 1

/-- Calling `complete_test_ND` as Python does, with a possibly-`None`
`sigma_skeleton`: the first statement of the function body reads
`sigma_skeleton.shape[0]`, before `open(filename, "wt")`, so a `None`
skeleton raises `AttributeError` with no report file ever opened and no grid
cell evaluated. -/
def complete_test_ND_py {V δ : Type} [Field V] [DecidableEq V] (p : NDParams V δ) :
    Option (NPMatrix V) → Except PyErr (NDState V)
  | none => Except.error PyErr.attributeError
  | some sigma_skeleton => Except.ok (complete_test_ND p sigma_skeleton)

/-- The embedded main block: validate `correlation_type` and `noise_type`
(each failure raises `SystemExit("Wrong type correlation type")` — the noise
message is the same copy-pasted text), then loop over the dimensions, select
skeleton and determinant, and run `complete_test_ND` with `samples=3`.
The injected strategies stand for the `job_dictionary` and
`estimator_dictionary` entries (whose bodies live in the external modules
`random_samples` and `mutual_inf`). -/
def main_run {V δ : Type} [Field V] [DecidableEq V]
    (correlation_type noise_type : String) (correlation : V)
    (dimensions : List ℕ) (base : NDParams V δ) :
    Except PyErr (List (NDState V)) :=
  if correlation_type ∈ correlation_types then
    if noise_type ∈ noise_types then
      dimensions.mapM (fun dimension =>
        let sk := select_sigma_skeleton correlation_type correlation dimension
        complete_test_ND_py { base with samples := 3, determinant := sk.2 } sk.1)
    else Except.error (PyErr.systemExit "Wrong type correlation type")
  else Except.error (PyErr.systemExit "Wrong type correlation type")

/-! ### The closed-form oracle for the 1-D Gaussian -/

/-- Modelled from the spec: `Renyi_normal_distribution_1D` is imported from
the module `random_samples`, which is not part of the provided sources.
Spec sections 4.1 and 8: for the 1-D Gaussian with scale sigma, alpha = 1
(the Shannon limiting case) gives `log2(2 pi e sigma^2)/2`, and alpha
different from 1 gives `log2(2 pi)/2 + log2(sigma) + log2(alpha)/(alpha-1)/2`.
The base-2 logarithm and the constants pi and e of the scalar type are
passed explicitly so that the definition stays executable for executable
scalar types. -/
def Renyi_normal_distribution_1D {V : Type} [Field V] [DecidableEq V]
    (log2 : V → V) (pival euler sigma alpha : V) : V :=
  if alpha = 1 then log2 (2 * pival * euler * sigma ^ 2) / 2
  else log2 (2 * pival) / 2 + log2 sigma + log2 alpha / (alpha - 1) / 2

/-! ### Closed-form predictions for the driver runs

The following functions give, leaf by leaf, the content the drivers produce;
the structural lemmas below prove that the drivers equal these predictions.
`t0` is always the ordinal of the first trial of the leaf or pass at hand. -/

/-- The segment of values `f t0, f (t0+1), ..., f (t0+m-1)`. -/
def segF {V : Type} (f : ℕ → V) : ℕ → ℕ → List V
  | _, 0 => []
  | t0, m + 1 => f t0 :: segF f (t0 + 1) m

/-- The entropy value the N-D driver records at trial ordinal `t` of a pass:
the adapter is invoked with `alpha={alpha}` and the pass's index set, and the
driver reads the returned structure at the float `alpha` and then at the
fixed inner key `0` (`entropy[alpha][0]`) — not at the requested index set. -/
def nd_est_at {V δ : Type} (p : NDParams V δ) (msig : NPMatrix V) (alpha : V)
    (size_sample : ℕ) (indices_to_use : List ℕ) (t : ℕ) : V :=
  p.sample_estimator (p.sample_generator t p.mu msig size_sample) [alpha]
    indices_to_use alpha (Sum.inl 0)

/-- The duration measured at trial ordinal `t`: difference of two successive
process-clock reads. -/
def nd_dur_at {V δ : Type} [Field V] (p : NDParams V δ) (t : ℕ) : V :=
  p.ptime (2 * t + 1) - p.ptime (2 * t)

/-- The 7 tab-terminated aggregate statistics one pass writes. -/
def nd_cell_str {V δ : Type} [Field V] (p : NDParams V δ) (msig : NPMatrix V)
    (theo alpha : V) (size_sample : ℕ) (indices_to_use : List ℕ) (t0 : ℕ) : String :=
  let es := segF (nd_est_at p msig alpha size_sample indices_to_use) t0 p.samples
  let ds := segF (nd_dur_at p) t0 p.samples
  let fs := segF (fun t => theo - nd_est_at p msig alpha size_sample indices_to_use t) t0 p.samples
  showStat p.showV (np_mean es) ++ "\t" ++
  showStat p.showV (np_std p.sqrtV es) ++ "\t" ++
  showStat p.showV (np_mean ds) ++ "\t" ++
  showStat p.showV (np_std p.sqrtV ds) ++ "\t" ++
  showStat p.showV (np_mean fs) ++ "\t" ++
  showStat p.showV (np_std p.sqrtV fs) ++ "\t" ++
  showStat p.showV (stat_moment3 fs) ++ "\t"

/-- Concatenation of the pass cells of one grid leaf, in pass order. -/
def nd_cells_cat {V δ : Type} [Field V] (p : NDParams V δ) (msig : NPMatrix V)
    (theo alpha : V) (size_sample : ℕ) : List (List ℕ) → ℕ → String
  | [], _ => ""
  | indices_to_use :: rest, t0 =>
      nd_cell_str p msig theo alpha size_sample indices_to_use t0 ++
        nd_cells_cat p msig theo alpha size_sample rest (t0 + p.samples)

/-- The dict transformation performed by the passes of one leaf: each pass
re-assigns the same `sample_position` key. -/
def nd_pass_dict {V : Type} [DecidableEq V] (m : ℕ) (pos : V × ℕ × V)
    (valF : List ℕ → ℕ → List V) :
    List (List ℕ) → ℕ → List ((V × ℕ × V) × List V) → List ((V × ℕ × V) × List V)
  | [], _, d => d
  | indices_to_use :: rest, t0, d =>
      nd_pass_dict m pos valF rest (t0 + m) (dictSet d pos (valF indices_to_use t0))

/-- The dict append performed by the trial loop. -/
def dictAppendSeq {V : Type} [DecidableEq V] (pos : V × ℕ × V) (f : ℕ → V) :
    ℕ → ℕ → List ((V × ℕ × V) × List V) → List ((V × ℕ × V) × List V)
  | _, 0, d => d
  | t0, m + 1, d => dictAppendSeq pos f (t0 + 1) m (dictAppend d pos (f t0))

/-- The tab-terminated leaf-row prefix: dimension, alpha, sample size, sigma,
theoretical value. -/
def nd_row_lead {V δ : Type} (p : NDParams V δ) (dimension : ℕ)
    (sigma alpha theo : V) (size_sample : ℕ) : String :=
  toString dimension ++ "\t" ++ p.showV alpha ++ "\t" ++ toString size_sample ++
  "\t" ++ p.showV sigma ++ "\t" ++ p.showV theo ++ "\t"

/-- Concatenation of the per-index labelled header groups. -/
def nd_groups_cat : List ℕ → String
  | [] => ""
  | index :: rest => nd_header_group index ++ nd_groups_cat rest

/-- The complete header line of an N-D report. -/
def ndHeaderLine (indices : List ℕ) : String :=
  "dimension\talpha\tsample size\tsigma\ttheoretical value\t" ++
    nd_groups_cat indices ++ nd_header_tail

/-- The list of index-set passes per leaf: one singleton per requested index,
then the full requested index tuple, appended last. -/
def nd_real_indeces {V δ : Type} (p : NDParams V δ) : List (List ℕ) :=
  p.indices_to_use.map (fun i => [i]) ++ [p.indices_to_use]

/-- Number of trials one grid leaf consumes. -/
def ndStride {V δ : Type} (p : NDParams V δ) : ℕ :=
  (nd_real_indeces p).length * p.samples

/-- The grid leaves `(sigma, alpha, size_sample)` in nested-loop order:
sigma outermost, then alpha, then sample size innermost. -/
def ndLeaves {V δ : Type} (p : NDParams V δ) : List (V × V × ℕ) :=
  p.sigmas.flatMap (fun sigma =>
    p.alphas.flatMap (fun alpha =>
      p.sizes_of_sample.map (fun size_sample => (sigma, alpha, size_sample))))

/-- The accumulation-dict key of a leaf: `sample_position = (alpha, size, sigma)`. -/
def ndKeyF {V : Type} (leaf : V × V × ℕ) : V × ℕ × V :=
  (leaf.2.1, leaf.2.2, leaf.1)

/-- The oracle value of a `(sigma, alpha)` pair, evaluated once per pair. -/
def nd_theo {V δ : Type} [Field V] [DecidableEq V] (p : NDParams V δ)
    (sigma_skeleton : NPMatrix V) (sigma alpha : V) : V :=
  p.theoretical_value_function (NPMatrix.smul sigma sigma_skeleton) alpha
    (nd_used_det p sigma_skeleton.rows sigma)

/-- The full data row of a leaf whose first trial has ordinal `t0`. -/
def ndLineF {V δ : Type} [Field V] [DecidableEq V] (p : NDParams V δ)
    (sigma_skeleton : NPMatrix V) (leaf : V × V × ℕ) (t0 : ℕ) : String :=
  nd_row_lead p sigma_skeleton.rows leaf.1 leaf.2.1
      (nd_theo p sigma_skeleton leaf.1 leaf.2.1) leaf.2.2 ++
    nd_cells_cat p (NPMatrix.smul leaf.1 sigma_skeleton)
      (nd_theo p sigma_skeleton leaf.1 leaf.2.1) leaf.2.1 leaf.2.2
      (nd_real_indeces p) t0

/-- The entropy list a leaf finally retains: the outcomes of its last pass,
the one over the combined index set (earlier passes are overwritten). -/
def ndEntF {V δ : Type} [Field V] [DecidableEq V] (p : NDParams V δ)
    (sigma_skeleton : NPMatrix V) (leaf : V × V × ℕ) (t0 : ℕ) : List V :=
  segF (nd_est_at p (NPMatrix.smul leaf.1 sigma_skeleton) leaf.2.1 leaf.2.2 p.indices_to_use)
    (t0 + p.indices_to_use.length * p.samples) p.samples

/-- The duration list a leaf finally retains. -/
def ndDurF {V δ : Type} [Field V] (p : NDParams V δ)
    (_leaf : V × V × ℕ) (t0 : ℕ) : List V :=
  segF (nd_dur_at p) (t0 + p.indices_to_use.length * p.samples) p.samples

/-- The difference list a leaf finally retains: the shared oracle value of
the leaf's `(sigma, alpha)` pair minus each recorded entropy. -/
def ndDiffF {V δ : Type} [Field V] [DecidableEq V] (p : NDParams V δ)
    (sigma_skeleton : NPMatrix V) (leaf : V × V × ℕ) (t0 : ℕ) : List V :=
  segF (fun t => nd_theo p sigma_skeleton leaf.1 leaf.2.1 -
      nd_est_at p (NPMatrix.smul leaf.1 sigma_skeleton) leaf.2.1 leaf.2.2 p.indices_to_use t)
    (t0 + p.indices_to_use.length * p.samples) p.samples

/-- Rows produced by a list of leaves, `c` trials per leaf, first trial `t0`. -/
def rowsFromLeaves {L : Type} (c : ℕ) (lineF : L → ℕ → String) :
    List L → ℕ → List String
  | [], _ => []
  | x :: rest, t0 => lineF x t0 :: rowsFromLeaves c lineF rest (t0 + c)

/-- Dict state produced by a list of leaves, `c` trials per leaf. -/
def dictFromLeaves {K A L : Type} [DecidableEq K] (c : ℕ) (keyF : L → K)
    (valF : L → ℕ → A) : List L → ℕ → List (K × A) → List (K × A)
  | [], _, d => d
  | x :: rest, t0, d =>
      dictFromLeaves c keyF valF rest (t0 + c) (dictSet d (keyF x) (valF x t0))

/-- The estimator-invocation log of one leaf: for each pass in order, the
pass's index set once per repeated trial. -/
def ndLeafLog {V δ : Type} (p : NDParams V δ) : List (List ℕ) :=
  (nd_real_indeces p).flatMap (List.replicate p.samples)

/-! ### Dictionary lemmas -/

lemma dictGetD_dictSet {K A : Type} [DecidableEq K] (d : List (K × A)) (k : K)
    (a dflt : A) : dictGetD (dictSet d k a) k dflt = a := by
  induction d with
  | nil => simp [dictSet, dictGetD]
  | cons h rest ih =>
      obtain ⟨k', a'⟩ := h
      by_cases hk : k' = k <;> simp [dictSet, dictGetD, hk, ih]

lemma dictSet_dictSet {K A : Type} [DecidableEq K] (d : List (K × A)) (k : K)
    (a b : A) : dictSet (dictSet d k a) k b = dictSet d k b := by
  induction d with
  | nil => simp [dictSet]
  | cons h rest ih =>
      obtain ⟨k', a'⟩ := h
      by_cases hk : k' = k <;> simp [dictSet, hk, ih]

lemma dictAppend_dictSet {K A : Type} [DecidableEq K] (d : List (K × List A))
    (k : K) (l : List A) (v : A) :
    dictAppend (dictSet d k l) k v = dictSet d k (l ++ [v]) := by
  simp [dictAppend, dictGetD_dictSet, dictSet_dictSet]

lemma dictAppendSeq_dictSet {V : Type} [DecidableEq V] (pos : V × ℕ × V)
    (f : ℕ → V) (m : ℕ) :
    ∀ (t0 : ℕ) (l : List V) (d : List ((V × ℕ × V) × List V)),
      dictAppendSeq pos f t0 m (dictSet d pos l) = dictSet d pos (l ++ segF f t0 m) := by
  induction m with
  | zero => intro t0 l d; simp [dictAppendSeq, segF]
  | succ m ih =>
      intro t0 l d
      simp only [dictAppendSeq, segF, dictAppend_dictSet, ih, List.append_assoc,
        List.singleton_append]

/-! ### The trial loop and pass lemmas (N-D driver) -/

lemma nd_trials_spec {V δ : Type} [Field V] [DecidableEq V] (p : NDParams V δ)
    (msig : NPMatrix V) (theo alpha : V) (size_sample : ℕ)
    (indices_to_use : List ℕ) (pos : V × ℕ × V) (m : ℕ) :
    ∀ st : NDState V,
      nd_trials p msig theo alpha size_sample indices_to_use pos m st =
      { st with
        tIdx := st.tIdx + m
        callLog := st.callLog ++ List.replicate m indices_to_use
        entropy_samples :=
          dictAppendSeq pos (nd_est_at p msig alpha size_sample indices_to_use)
            st.tIdx m st.entropy_samples
        duration_samples := dictAppendSeq pos (nd_dur_at p) st.tIdx m st.duration_samples
        difference_samples :=
          dictAppendSeq pos
            (fun t => theo - nd_est_at p msig alpha size_sample indices_to_use t)
            st.tIdx m st.difference_samples } := by
  induction m with
  | zero => intro st; simp [nd_trials, dictAppendSeq]
  | succ m ih =>
      intro st
      rw [nd_trials, ih]
      ext <;>
        simp [nd_trial, nd_est_at, nd_dur_at, dictAppendSeq, List.replicate_succ] <;>
        omega

lemma nd_pass_spec {V δ : Type} [Field V] [DecidableEq V] (p : NDParams V δ)
    (msig : NPMatrix V) (theo sigma alpha : V) (size_sample : ℕ)
    (indices_to_use : List ℕ) (st : NDState V) :
    nd_pass p msig theo sigma alpha size_sample indices_to_use st =
    { st with
      cur := st.cur ++ nd_cell_str p msig theo alpha size_sample indices_to_use st.tIdx
      tIdx := st.tIdx + p.samples
      callLog := st.callLog ++ List.replicate p.samples indices_to_use
      entropy_samples :=
        dictSet st.entropy_samples (alpha, size_sample, sigma)
          (segF (nd_est_at p msig alpha size_sample indices_to_use) st.tIdx p.samples)
      duration_samples :=
        dictSet st.duration_samples (alpha, size_sample, sigma)
          (segF (nd_dur_at p) st.tIdx p.samples)
      difference_samples :=
        dictSet st.difference_samples (alpha, size_sample, sigma)
          (segF (fun t => theo - nd_est_at p msig alpha size_sample indices_to_use t)
            st.tIdx p.samples) } := by
  rw [nd_pass]
  rw [nd_trials_spec]
  ext <;>
    simp [NDState.fprint, nd_cell_str, dictAppendSeq_dictSet, dictGetD_dictSet]

lemma nd_passes_spec {V δ : Type} [Field V] [DecidableEq V] (p : NDParams V δ)
    (msig : NPMatrix V) (theo sigma alpha : V) (size_sample : ℕ)
    (L : List (List ℕ)) :
    ∀ st : NDState V,
      L.foldl (fun s indices_to_use =>
        nd_pass p msig theo sigma alpha size_sample indices_to_use s) st =
      { st with
        cur := st.cur ++ nd_cells_cat p msig theo alpha size_sample L st.tIdx
        tIdx := st.tIdx + L.length * p.samples
        callLog := st.callLog ++ L.flatMap (List.replicate p.samples)
        entropy_samples :=
          nd_pass_dict p.samples (alpha, size_sample, sigma)
            (fun indices_to_use t0 =>
              segF (nd_est_at p msig alpha size_sample indices_to_use) t0 p.samples)
            L st.tIdx st.entropy_samples
        duration_samples :=
          nd_pass_dict p.samples (alpha, size_sample, sigma)
            (fun _ t0 => segF (nd_dur_at p) t0 p.samples)
            L st.tIdx st.duration_samples
        difference_samples :=
          nd_pass_dict p.samples (alpha, size_sample, sigma)
            (fun indices_to_use t0 =>
              segF (fun t => theo - nd_est_at p msig alpha size_sample indices_to_use t)
                t0 p.samples)
            L st.tIdx st.difference_samples } := by
  induction L with
  | nil => intro st; simp [nd_cells_cat, nd_pass_dict]
  | cons x rest ih =>
      intro st
      rw [List.foldl_cons, nd_pass_spec, ih]
      ext <;>
        simp [nd_cells_cat, nd_pass_dict, String.append_assoc, List.append_assoc] <;>
        ring

lemma nd_leaf_spec {V δ : Type} [Field V] [DecidableEq V] (p : NDParams V δ)
    (msig : NPMatrix V) (dimension : ℕ) (theo sigma alpha : V) (size_sample : ℕ)
    (real_indeces : List (List ℕ)) (st : NDState V) :
    nd_leaf p msig dimension theo sigma alpha size_sample real_indeces st =
    { st with
      lines := st.lines ++
        [st.cur ++ nd_row_lead p dimension sigma alpha theo size_sample ++
          nd_cells_cat p msig theo alpha size_sample real_indeces st.tIdx]
      cur := ""
      tIdx := st.tIdx + real_indeces.length * p.samples
      callLog := st.callLog ++ real_indeces.flatMap (List.replicate p.samples)
      entropy_samples :=
        nd_pass_dict p.samples (alpha, size_sample, sigma)
          (fun indices_to_use t0 =>
            segF (nd_est_at p msig alpha size_sample indices_to_use) t0 p.samples)
          real_indeces st.tIdx st.entropy_samples
      duration_samples :=
        nd_pass_dict p.samples (alpha, size_sample, sigma)
          (fun _ t0 => segF (nd_dur_at p) t0 p.samples)
          real_indeces st.tIdx st.duration_samples
      difference_samples :=
        nd_pass_dict p.samples (alpha, size_sample, sigma)
          (fun indices_to_use t0 =>
            segF (fun t => theo - nd_est_at p msig alpha size_sample indices_to_use t)
              t0 p.samples)
          real_indeces st.tIdx st.difference_samples } := by
  rw [nd_leaf]
  rw [show (NDState.fprint st (toString dimension ++ "\t" ++ p.showV alpha ++ "\t" ++
      toString size_sample ++ "\t" ++ p.showV sigma ++ "\t" ++ p.showV theo ++ "\t")) =
      NDState.fprint st (nd_row_lead p dimension sigma alpha theo size_sample) from rfl]
  rw [nd_passes_spec]
  ext <;> simp [NDState.fprint, NDState.fprintln, nd_row_lead, String.append_assoc]

/-- Re-assigning the same key once per pass leaves only the last pass's
value: the passes of a leaf collapse to a single dict assignment. -/
lemma nd_pass_dict_append_last {V : Type} [DecidableEq V] (m : ℕ) (pos : V × ℕ × V)
    (valF : List ℕ → ℕ → List V) (L : List (List ℕ)) (last : List ℕ) :
    ∀ (t0 : ℕ) (d : List ((V × ℕ × V) × List V)),
      nd_pass_dict m pos valF (L ++ [last]) t0 d =
        dictSet d pos (valF last (t0 + L.length * m)) := by
  induction L with
  | nil => intro t0 d; simp [nd_pass_dict]
  | cons x rest ih =>
      intro t0 d
      rw [List.cons_append, nd_pass_dict, ih, dictSet_dictSet]
      simp only [List.length_cons]
      ring_nf

/-- A generic fold of per-leaf dict transformations, `c` trials per leaf. -/
def dictTransFrom {L D : Type} (c : ℕ) (tF : L → ℕ → D → D) :
    List L → ℕ → D → D
  | [], _, d => d
  | x :: rest, t0, d => dictTransFrom c tF rest (t0 + c) (tF x t0 d)

lemma dictTransFrom_append {L D : Type} (c : ℕ) (tF : L → ℕ → D → D)
    (l1 l2 : List L) : ∀ (t0 : ℕ) (d : D),
      dictTransFrom c tF (l1 ++ l2) t0 d =
        dictTransFrom c tF l2 (t0 + l1.length * c) (dictTransFrom c tF l1 t0 d) := by
  induction l1 with
  | nil => intro t0 d; simp [dictTransFrom]
  | cons x rest ih =>
      intro t0 d
      rw [List.cons_append, dictTransFrom, ih, dictTransFrom]
      simp only [List.length_cons]
      ring_nf

lemma dictTransFrom_eq_dictFromLeaves {K A L : Type} [DecidableEq K] (c : ℕ)
    (tF : L → ℕ → List (K × A) → List (K × A)) (keyF : L → K) (valF : L → ℕ → A)
    (hpt : ∀ x t0 d, tF x t0 d = dictSet d (keyF x) (valF x t0)) (l : List L) :
    ∀ (t0 : ℕ) (d : List (K × A)),
      dictTransFrom c tF l t0 d = dictFromLeaves c keyF valF l t0 d := by
  induction l with
  | nil => intro t0 d; simp [dictTransFrom, dictFromLeaves]
  | cons x rest ih => intro t0 d; rw [dictTransFrom, dictFromLeaves, hpt, ih]

lemma rowsFromLeaves_append {L : Type} (c : ℕ) (lineF : L → ℕ → String)
    (l1 l2 : List L) : ∀ t0 : ℕ,
      rowsFromLeaves c lineF (l1 ++ l2) t0 =
        rowsFromLeaves c lineF l1 t0 ++ rowsFromLeaves c lineF l2 (t0 + l1.length * c) := by
  induction l1 with
  | nil => intro t0; simp [rowsFromLeaves]
  | cons x rest ih =>
      intro t0
      rw [List.cons_append, rowsFromLeaves, rowsFromLeaves, ih]
      simp only [List.length_cons, List.cons_append, List.append_assoc]
      ring_nf

/-- The dict transformation of a whole leaf, entropy component. -/
def ndTransE {V δ : Type} [Field V] [DecidableEq V] (p : NDParams V δ)
    (sigma_skeleton : NPMatrix V) (leaf : V × V × ℕ) (t0 : ℕ)
    (d : List ((V × ℕ × V) × List V)) : List ((V × ℕ × V) × List V) :=
  nd_pass_dict p.samples (leaf.2.1, leaf.2.2, leaf.1)
    (fun indices_to_use t1 =>
      segF (nd_est_at p (NPMatrix.smul leaf.1 sigma_skeleton) leaf.2.1 leaf.2.2 indices_to_use)
        t1 p.samples)
    (nd_real_indeces p) t0 d

/-- The dict transformation of a whole leaf, duration component. -/
def ndTransD {V δ : Type} [Field V] [DecidableEq V] (p : NDParams V δ)
    (leaf : V × V × ℕ) (t0 : ℕ)
    (d : List ((V × ℕ × V) × List V)) : List ((V × ℕ × V) × List V) :=
  nd_pass_dict p.samples (leaf.2.1, leaf.2.2, leaf.1)
    (fun _ t1 => segF (nd_dur_at p) t1 p.samples)
    (nd_real_indeces p) t0 d

/-- The dict transformation of a whole leaf, difference component. -/
def ndTransF {V δ : Type} [Field V] [DecidableEq V] (p : NDParams V δ)
    (sigma_skeleton : NPMatrix V) (leaf : V × V × ℕ) (t0 : ℕ)
    (d : List ((V × ℕ × V) × List V)) : List ((V × ℕ × V) × List V) :=
  nd_pass_dict p.samples (leaf.2.1, leaf.2.2, leaf.1)
    (fun indices_to_use t1 =>
      segF (fun t => nd_theo p sigma_skeleton leaf.1 leaf.2.1 -
          nd_est_at p (NPMatrix.smul leaf.1 sigma_skeleton) leaf.2.1 leaf.2.2 indices_to_use t)
        t1 p.samples)
    (nd_real_indeces p) t0 d

lemma nd_sizes_spec {V δ : Type} [Field V] [DecidableEq V] (p : NDParams V δ)
    (sigma_skeleton : NPMatrix V) (sigma alpha : V) (ns : List ℕ) :
    ∀ st : NDState V, st.cur = "" →
      ns.foldl (fun s size_sample =>
        nd_leaf p (NPMatrix.smul sigma sigma_skeleton) sigma_skeleton.rows
          (nd_theo p sigma_skeleton sigma alpha) sigma alpha size_sample
          (nd_real_indeces p) s) st =
      { st with
        lines := st.lines ++
          rowsFromLeaves (ndStride p) (ndLineF p sigma_skeleton)
            (ns.map (fun size_sample => (sigma, alpha, size_sample))) st.tIdx
        cur := ""
        tIdx := st.tIdx + ns.length * ndStride p
        callLog := st.callLog ++
          (ns.map (fun size_sample => (sigma, alpha, size_sample))).flatMap
            (fun _ => ndLeafLog p)
        entropy_samples :=
          dictTransFrom (ndStride p) (ndTransE p sigma_skeleton)
            (ns.map (fun size_sample => (sigma, alpha, size_sample)))
            st.tIdx st.entropy_samples
        duration_samples :=
          dictTransFrom (ndStride p) (ndTransD p)
            (ns.map (fun size_sample => (sigma, alpha, size_sample)))
            st.tIdx st.duration_samples
        difference_samples :=
          dictTransFrom (ndStride p) (ndTransF p sigma_skeleton)
            (ns.map (fun size_sample => (sigma, alpha, size_sample)))
            st.tIdx st.difference_samples } := by
  induction ns with
  | nil =>
      intro st h
      simp [rowsFromLeaves, dictTransFrom]
      ext <;> simp [h]
  | cons n rest ih =>
      intro st h
      rw [List.foldl_cons, nd_leaf_spec, ih _ (by simp)]
      ext <;>
        simp [h, rowsFromLeaves, dictTransFrom, ndTransE, ndTransD, ndTransF,
          ndLineF, ndStride, ndLeafLog, List.append_assoc] <;>
        ring

lemma nd_alpha_spec {V δ : Type} [Field V] [DecidableEq V] (p : NDParams V δ)
    (sigma_skeleton : NPMatrix V) (sigma alpha : V) (st : NDState V)
    (h : st.cur = "") :
    nd_alpha p (NPMatrix.smul sigma sigma_skeleton) sigma_skeleton.rows
      (nd_used_det p sigma_skeleton.rows sigma) sigma alpha (nd_real_indeces p) st =
    { st with
      lines := st.lines ++
        rowsFromLeaves (ndStride p) (ndLineF p sigma_skeleton)
          (p.sizes_of_sample.map (fun size_sample => (sigma, alpha, size_sample))) st.tIdx
      cur := ""
      tIdx := st.tIdx + p.sizes_of_sample.length * ndStride p
      oracleCalls := st.oracleCalls + 1
      callLog := st.callLog ++
        (p.sizes_of_sample.map (fun size_sample => (sigma, alpha, size_sample))).flatMap
          (fun _ => ndLeafLog p)
      entropy_samples :=
        dictTransFrom (ndStride p) (ndTransE p sigma_skeleton)
          (p.sizes_of_sample.map (fun size_sample => (sigma, alpha, size_sample)))
          st.tIdx st.entropy_samples
      duration_samples :=
        dictTransFrom (ndStride p) (ndTransD p)
          (p.sizes_of_sample.map (fun size_sample => (sigma, alpha, size_sample)))
          st.tIdx st.duration_samples
      difference_samples :=
        dictTransFrom (ndStride p) (ndTransF p sigma_skeleton)
          (p.sizes_of_sample.map (fun size_sample => (sigma, alpha, size_sample)))
          st.tIdx st.difference_samples } := by
  rw [nd_alpha]
  have hth : p.theoretical_value_function (NPMatrix.smul sigma sigma_skeleton) alpha
      (nd_used_det p sigma_skeleton.rows sigma) = nd_theo p sigma_skeleton sigma alpha := rfl
  rw [hth, nd_sizes_spec p sigma_skeleton sigma alpha p.sizes_of_sample
    { st with oracleCalls := st.oracleCalls + 1 } h]

lemma length_flatMap_const {A C : Type} (l : List A) (g : A → List C) (k : ℕ)
    (h : ∀ a, (g a).length = k) : (l.flatMap g).length = l.length * k := by
  induction l with
  | nil => simp
  | cons a rest ih => simp [List.flatMap_cons, h, ih, Nat.succ_mul, Nat.add_comm]

lemma nd_alphas_spec {V δ : Type} [Field V] [DecidableEq V] (p : NDParams V δ)
    (sigma_skeleton : NPMatrix V) (sigma : V) (alphas : List V) :
    ∀ st : NDState V, st.cur = "" →
      alphas.foldl (fun s alpha =>
        nd_alpha p (NPMatrix.smul sigma sigma_skeleton) sigma_skeleton.rows
          (nd_used_det p sigma_skeleton.rows sigma) sigma alpha (nd_real_indeces p) s) st =
      { st with
        lines := st.lines ++
          rowsFromLeaves (ndStride p) (ndLineF p sigma_skeleton)
            (alphas.flatMap (fun alpha =>
              p.sizes_of_sample.map (fun size_sample => (sigma, alpha, size_sample))))
            st.tIdx
        cur := ""
        tIdx := st.tIdx + alphas.length * (p.sizes_of_sample.length * ndStride p)
        oracleCalls := st.oracleCalls + alphas.length
        callLog := st.callLog ++
          (alphas.flatMap (fun alpha =>
            p.sizes_of_sample.map (fun size_sample => (sigma, alpha, size_sample)))).flatMap
            (fun _ => ndLeafLog p)
        entropy_samples :=
          dictTransFrom (ndStride p) (ndTransE p sigma_skeleton)
            (alphas.flatMap (fun alpha =>
              p.sizes_of_sample.map (fun size_sample => (sigma, alpha, size_sample))))
            st.tIdx st.entropy_samples
        duration_samples :=
          dictTransFrom (ndStride p) (ndTransD p)
            (alphas.flatMap (fun alpha =>
              p.sizes_of_sample.map (fun size_sample => (sigma, alpha, size_sample))))
            st.tIdx st.duration_samples
        difference_samples :=
          dictTransFrom (ndStride p) (ndTransF p sigma_skeleton)
            (alphas.flatMap (fun alpha =>
              p.sizes_of_sample.map (fun size_sample => (sigma, alpha, size_sample))))
            st.tIdx st.difference_samples } := by
  induction alphas with
  | nil =>
      intro st h
      simp [rowsFromLeaves, dictTransFrom]
      ext <;> simp [h]
  | cons alpha rest ih =>
      intro st h
      rw [List.foldl_cons, nd_alpha_spec p sigma_skeleton sigma alpha st h, ih _ (by simp)]
      ext <;>
        simp [List.flatMap_cons, rowsFromLeaves_append, dictTransFrom_append,
          List.length_map, List.append_assoc, List.length_append, List.length_flatMap,
          Nat.mul_add, Nat.add_mul] <;>
        ring

lemma nd_sigmas_spec {V δ : Type} [Field V] [DecidableEq V] (p : NDParams V δ)
    (sigma_skeleton : NPMatrix V) (sigmas : List V) :
    ∀ st : NDState V, st.cur = "" →
      sigmas.foldl (fun s sigma =>
        nd_sigma p sigma_skeleton sigma_skeleton.rows sigma (nd_real_indeces p) s) st =
      { st with
        lines := st.lines ++
          rowsFromLeaves (ndStride p) (ndLineF p sigma_skeleton)
            (sigmas.flatMap (fun sigma =>
              p.alphas.flatMap (fun alpha =>
                p.sizes_of_sample.map (fun size_sample => (sigma, alpha, size_sample)))))
            st.tIdx
        cur := ""
        tIdx := st.tIdx +
          sigmas.length * (p.alphas.length * (p.sizes_of_sample.length * ndStride p))
        oracleCalls := st.oracleCalls + sigmas.length * p.alphas.length
        callLog := st.callLog ++
          (sigmas.flatMap (fun sigma =>
            p.alphas.flatMap (fun alpha =>
              p.sizes_of_sample.map (fun size_sample => (sigma, alpha, size_sample))))).flatMap
            (fun _ => ndLeafLog p)
        entropy_samples :=
          dictTransFrom (ndStride p) (ndTransE p sigma_skeleton)
            (sigmas.flatMap (fun sigma =>
              p.alphas.flatMap (fun alpha =>
                p.sizes_of_sample.map (fun size_sample => (sigma, alpha, size_sample)))))
            st.tIdx st.entropy_samples
        duration_samples :=
          dictTransFrom (ndStride p) (ndTransD p)
            (sigmas.flatMap (fun sigma =>
              p.alphas.flatMap (fun alpha =>
                p.sizes_of_sample.map (fun size_sample => (sigma, alpha, size_sample)))))
            st.tIdx st.duration_samples
        difference_samples :=
          dictTransFrom (ndStride p) (ndTransF p sigma_skeleton)
            (sigmas.flatMap (fun sigma =>
              p.alphas.flatMap (fun alpha =>
                p.sizes_of_sample.map (fun size_sample => (sigma, alpha, size_sample)))))
            st.tIdx st.difference_samples } := by
  induction sigmas with
  | nil =>
      intro st h
      simp [rowsFromLeaves, dictTransFrom]
      ext <;> simp [h]
  | cons sigma rest ih =>
      intro st h
      rw [List.foldl_cons]
      rw [show nd_sigma p sigma_skeleton sigma_skeleton.rows sigma (nd_real_indeces p) st =
        p.alphas.foldl (fun s alpha =>
          nd_alpha p (NPMatrix.smul sigma sigma_skeleton) sigma_skeleton.rows
            (nd_used_det p sigma_skeleton.rows sigma) sigma alpha (nd_real_indeces p) s) st
        from rfl]
      rw [nd_alphas_spec p sigma_skeleton sigma p.alphas st h, ih _ (by simp)]
      have hl : (p.alphas.flatMap (fun alpha =>
          p.sizes_of_sample.map (fun size_sample => (sigma, alpha, size_sample)))).length =
          p.alphas.length * p.sizes_of_sample.length :=
        length_flatMap_const _ _ _ (fun a => by simp)
      ext <;>
        simp [List.flatMap_cons, List.flatMap_append, rowsFromLeaves_append,
          dictTransFrom_append, List.length_map, List.append_assoc, List.length_append,
          hl, Nat.mul_assoc] <;>
        ring

lemma nd_header_fold {V : Type} (l : List ℕ) :
    ∀ (st : NDState V) (acc : List (List ℕ)),
      l.foldl (fun (sr : NDState V × List (List ℕ)) index =>
        (sr.1.fprint (nd_header_group index), sr.2 ++ [[index]])) (st, acc) =
      (st.fprint (nd_groups_cat l), acc ++ l.map (fun i => [i])) := by
  induction l with
  | nil =>
      intro st acc
      simp only [List.foldl_nil, List.map_nil, List.append_nil, nd_groups_cat]
      refine Prod.ext ?_ rfl
      ext <;> simp [NDState.fprint]
  | cons i rest ih =>
      intro st acc
      rw [List.foldl_cons, ih]
      refine Prod.ext ?_ (by simp)
      ext <;> simp [NDState.fprint, nd_groups_cat, String.append_assoc]

/-- Structural characterisation of a full N-D driver run: the report is the
header line followed by one data row per grid leaf in nested-loop order
(sigma outermost, then alpha, then sample size); the three accumulation
dictionaries hold, per leaf key, the outcome lists of the leaf's last
index-set pass; the trial count, oracle-invocation count and estimator-call
log are as predicted. -/
theorem complete_test_ND_spec {V δ : Type} [Field V] [DecidableEq V]
    (p : NDParams V δ) (sigma_skeleton : NPMatrix V) :
    complete_test_ND p sigma_skeleton =
    { lines := ndHeaderLine p.indices_to_use ::
        rowsFromLeaves (ndStride p) (ndLineF p sigma_skeleton) (ndLeaves p) 0
      cur := ""
      entropy_samples :=
        dictFromLeaves (ndStride p) ndKeyF (ndEntF p sigma_skeleton) (ndLeaves p) 0 []
      duration_samples :=
        dictFromLeaves (ndStride p) ndKeyF (ndDurF p) (ndLeaves p) 0 []
      difference_samples :=
        dictFromLeaves (ndStride p) ndKeyF (ndDiffF p sigma_skeleton) (ndLeaves p) 0 []
      tIdx := p.sigmas.length * (p.alphas.length * (p.sizes_of_sample.length * ndStride p))
      oracleCalls := p.sigmas.length * p.alphas.length
      callLog := (ndLeaves p).flatMap (fun _ => ndLeafLog p) } := by
  have hE : ∀ (x : V × V × ℕ) (t0 : ℕ) (d : List ((V × ℕ × V) × List V)),
      ndTransE p sigma_skeleton x t0 d = dictSet d (ndKeyF x) (ndEntF p sigma_skeleton x t0) := by
    intro x t0 d
    rw [ndTransE, nd_real_indeces, nd_pass_dict_append_last]
    simp [ndKeyF, ndEntF, List.length_map]
  have hD : ∀ (x : V × V × ℕ) (t0 : ℕ) (d : List ((V × ℕ × V) × List V)),
      ndTransD p x t0 d = dictSet d (ndKeyF x) (ndDurF p x t0) := by
    intro x t0 d
    rw [ndTransD, nd_real_indeces, nd_pass_dict_append_last]
    simp [ndKeyF, ndDurF, List.length_map]
  have hF : ∀ (x : V × V × ℕ) (t0 : ℕ) (d : List ((V × ℕ × V) × List V)),
      ndTransF p sigma_skeleton x t0 d =
        dictSet d (ndKeyF x) (ndDiffF p sigma_skeleton x t0) := by
    intro x t0 d
    rw [ndTransF, nd_real_indeces, nd_pass_dict_append_last]
    simp [ndKeyF, ndDiffF, List.length_map]
  simp only [complete_test_ND]
  rw [nd_header_fold]
  simp only [List.nil_append]
  rw [show p.indices_to_use.map (fun i => [i]) ++ [p.indices_to_use] = nd_real_indeces p
    from rfl]
  rw [nd_sigmas_spec p sigma_skeleton p.sigmas _ rfl]
  ext <;>
    simp [NDState.initial, NDState.fprint, NDState.fprintln, ndHeaderLine, ndLeaves,
      dictTransFrom_eq_dictFromLeaves _ _ _ _ hE,
      dictTransFrom_eq_dictFromLeaves _ _ _ _ hD,
      dictTransFrom_eq_dictFromLeaves _ _ _ _ hF,
      String.append_assoc]

/-! ### Closed-form predictions for the 1-D driver -/

/-- The entropy value the 1-D driver records at trial ordinal `t`. -/
def oned_est_at {V δ : Type} (q : OneDParams V δ) (sigma alpha : V)
    (size_sample : ℕ) (t : ℕ) : V :=
  q.sample_estimator (q.sample_generator t q.mu sigma size_sample) alpha

/-- The duration measured at trial ordinal `t` of the 1-D driver. -/
def oned_dur_at {V δ : Type} [Field V] (q : OneDParams V δ) (t : ℕ) : V :=
  q.ptime (2 * t + 1) - q.ptime (2 * t)

/-- The grid cells of the 1-D driver in nested-loop order. -/
def onedLeaves {V δ : Type} (q : OneDParams V δ) : List (V × V × ℕ) :=
  q.sigmas.flatMap (fun sigma =>
    q.alphas.flatMap (fun alpha =>
      q.sizes_of_sample.map (fun size_sample => (sigma, alpha, size_sample))))

/-- The entropy list a 1-D cell retains. -/
def onedEntF {V δ : Type} [Field V] (q : OneDParams V δ) (leaf : V × V × ℕ)
    (t0 : ℕ) : List V :=
  segF (oned_est_at q leaf.1 leaf.2.1 leaf.2.2) t0 q.samples

/-- The duration list a 1-D cell retains. -/
def onedDurF {V δ : Type} [Field V] (q : OneDParams V δ) (_leaf : V × V × ℕ)
    (t0 : ℕ) : List V :=
  segF (oned_dur_at q) t0 q.samples

/-- The difference list a 1-D cell retains: the cell's single oracle value
minus each recorded entropy. -/
def onedDiffF {V δ : Type} [Field V] (q : OneDParams V δ) (leaf : V × V × ℕ)
    (t0 : ℕ) : List V :=
  segF (fun t => q.theoretical_value_function leaf.1 leaf.2.1 -
    oned_est_at q leaf.1 leaf.2.1 leaf.2.2 t) t0 q.samples

/-- The space-separated data line of a 1-D cell (9 fields, no header ever). -/
def onedLineF {V δ : Type} [Field V] (q : OneDParams V δ) (leaf : V × V × ℕ)
    (t0 : ℕ) : String :=
  q.showV leaf.2.1 ++ " " ++ toString leaf.2.2 ++ " " ++ q.showV leaf.1 ++ " " ++
  showStat q.showV (np_mean (onedEntF q leaf t0)) ++ " " ++
  showStat q.showV (np_std q.sqrtV (onedEntF q leaf t0)) ++ " " ++
  showStat q.showV (np_mean (onedDurF q leaf t0)) ++ " " ++
  showStat q.showV (np_std q.sqrtV (onedDurF q leaf t0)) ++ " " ++
  showStat q.showV (np_mean (onedDiffF q leaf t0)) ++ " " ++
  showStat q.showV (np_std q.sqrtV (onedDiffF q leaf t0))

lemma oned_trials_spec {V δ : Type} [Field V] [DecidableEq V] (q : OneDParams V δ)
    (theo sigma alpha : V) (size_sample : ℕ) (pos : V × ℕ × V) (m : ℕ) :
    ∀ st : NDState V,
      oned_trials q theo sigma alpha size_sample pos m st =
      { st with
        tIdx := st.tIdx + m
        entropy_samples :=
          dictAppendSeq pos (oned_est_at q sigma alpha size_sample)
            st.tIdx m st.entropy_samples
        duration_samples := dictAppendSeq pos (oned_dur_at q) st.tIdx m st.duration_samples
        difference_samples :=
          dictAppendSeq pos (fun t => theo - oned_est_at q sigma alpha size_sample t)
            st.tIdx m st.difference_samples } := by
  induction m with
  | zero => intro st; simp [oned_trials, dictAppendSeq]
  | succ m ih =>
      intro st
      rw [oned_trials, ih]
      ext <;>
        simp [oned_trial, oned_est_at, oned_dur_at, dictAppendSeq] <;>
        omega

lemma oned_cell_spec {V δ : Type} [Field V] [DecidableEq V] (q : OneDParams V δ)
    (sigma alpha : V) (size_sample : ℕ) (st : NDState V) :
    oned_cell q sigma alpha size_sample st =
    { st with
      lines := st.lines ++
        [st.cur ++ onedLineF q (sigma, alpha, size_sample) st.tIdx]
      cur := ""
      tIdx := st.tIdx + q.samples
      oracleCalls := st.oracleCalls + 1
      entropy_samples :=
        dictSet st.entropy_samples (alpha, size_sample, sigma)
          (onedEntF q (sigma, alpha, size_sample) st.tIdx)
      duration_samples :=
        dictSet st.duration_samples (alpha, size_sample, sigma)
          (onedDurF q (sigma, alpha, size_sample) st.tIdx)
      difference_samples :=
        dictSet st.difference_samples (alpha, size_sample, sigma)
          (onedDiffF q (sigma, alpha, size_sample) st.tIdx) } := by
  rw [oned_cell]
  rw [oned_trials_spec]
  ext <;>
    simp [NDState.fprintln, onedLineF, onedEntF, onedDurF, onedDiffF,
      dictAppendSeq_dictSet, dictGetD_dictSet, String.append_assoc]

lemma oned_sizes_spec {V δ : Type} [Field V] [DecidableEq V] (q : OneDParams V δ)
    (sigma alpha : V) (ns : List ℕ) :
    ∀ st : NDState V, st.cur = "" →
      ns.foldl (fun s size_sample => oned_cell q sigma alpha size_sample s) st =
      { st with
        lines := st.lines ++
          rowsFromLeaves q.samples (onedLineF q)
            (ns.map (fun size_sample => (sigma, alpha, size_sample))) st.tIdx
        cur := ""
        tIdx := st.tIdx + ns.length * q.samples
        oracleCalls := st.oracleCalls + ns.length
        entropy_samples :=
          dictFromLeaves q.samples ndKeyF (onedEntF q)
            (ns.map (fun size_sample => (sigma, alpha, size_sample)))
            st.tIdx st.entropy_samples
        duration_samples :=
          dictFromLeaves q.samples ndKeyF (onedDurF q)
            (ns.map (fun size_sample => (sigma, alpha, size_sample)))
            st.tIdx st.duration_samples
        difference_samples :=
          dictFromLeaves q.samples ndKeyF (onedDiffF q)
            (ns.map (fun size_sample => (sigma, alpha, size_sample)))
            st.tIdx st.difference_samples } := by
  induction ns with
  | nil =>
      intro st h
      simp [rowsFromLeaves, dictFromLeaves]
      ext <;> simp [h]
  | cons n rest ih =>
      intro st h
      rw [List.foldl_cons, oned_cell_spec, ih _ (by simp)]
      ext <;>
        simp [h, rowsFromLeaves, dictFromLeaves, ndKeyF, List.append_assoc] <;>
        ring

lemma oned_alphas_spec {V δ : Type} [Field V] [DecidableEq V] (q : OneDParams V δ)
    (sigma : V) (alphas : List V) :
    ∀ st : NDState V, st.cur = "" →
      alphas.foldl (fun st alpha =>
        q.sizes_of_sample.foldl
          (fun st size_sample => oned_cell q sigma alpha size_sample st) st) st =
      { st with
        lines := st.lines ++
          rowsFromLeaves q.samples (onedLineF q)
            (alphas.flatMap (fun alpha =>
              q.sizes_of_sample.map (fun size_sample => (sigma, alpha, size_sample))))
            st.tIdx
        cur := ""
        tIdx := st.tIdx + alphas.length * (q.sizes_of_sample.length * q.samples)
        oracleCalls := st.oracleCalls + alphas.length * q.sizes_of_sample.length
        entropy_samples :=
          dictFromLeaves q.samples ndKeyF (onedEntF q)
            (alphas.flatMap (fun alpha =>
              q.sizes_of_sample.map (fun size_sample => (sigma, alpha, size_sample))))
            st.tIdx st.entropy_samples
        duration_samples :=
          dictFromLeaves q.samples ndKeyF (onedDurF q)
            (alphas.flatMap (fun alpha =>
              q.sizes_of_sample.map (fun size_sample => (sigma, alpha, size_sample))))
            st.tIdx st.duration_samples
        difference_samples :=
          dictFromLeaves q.samples ndKeyF (onedDiffF q)
            (alphas.flatMap (fun alpha =>
              q.sizes_of_sample.map (fun size_sample => (sigma, alpha, size_sample))))
            st.tIdx st.difference_samples } := by
  induction alphas with
  | nil =>
      intro st h
      simp [rowsFromLeaves, dictFromLeaves]
      ext <;> simp [h]
  | cons alpha rest ih =>
      intro st h
      rw [List.foldl_cons, oned_sizes_spec q sigma alpha q.sizes_of_sample st h,
        ih _ (by simp)]
      have hap : ∀ (l1 l2 : List (V × V × ℕ)) (t0 : ℕ)
          (d : List ((V × ℕ × V) × List V)) (valF : (V × V × ℕ) → ℕ → List V),
          dictFromLeaves q.samples ndKeyF valF (l1 ++ l2) t0 d =
            dictFromLeaves q.samples ndKeyF valF l2 (t0 + l1.length * q.samples)
              (dictFromLeaves q.samples ndKeyF valF l1 t0 d) := by
        intro l1 l2 t0 d valF
        rw [← dictTransFrom_eq_dictFromLeaves q.samples
          (fun x t0 d => dictSet d (ndKeyF x) (valF x t0)) ndKeyF valF (fun _ _ _ => rfl),
          dictTransFrom_append,
          dictTransFrom_eq_dictFromLeaves q.samples
            (fun x t0 d => dictSet d (ndKeyF x) (valF x t0)) ndKeyF valF (fun _ _ _ => rfl),
          dictTransFrom_eq_dictFromLeaves q.samples
            (fun x t0 d => dictSet d (ndKeyF x) (valF x t0)) ndKeyF valF (fun _ _ _ => rfl)]
      ext <;>
        simp [List.flatMap_cons, rowsFromLeaves_append, hap, List.length_map,
          List.append_assoc, Nat.mul_assoc] <;>
        ring

/-- Structural characterisation of a full 1-D driver run: no header, one
space-separated data row per cell in nested-loop order, one oracle
invocation per cell, and per-cell outcome lists of length `samples`. -/
theorem complete_test_1D_spec {V δ : Type} [Field V] [DecidableEq V]
    (q : OneDParams V δ) :
    complete_test_1D q =
    { lines := rowsFromLeaves q.samples (onedLineF q) (onedLeaves q) 0
      cur := ""
      entropy_samples := dictFromLeaves q.samples ndKeyF (onedEntF q) (onedLeaves q) 0 []
      duration_samples := dictFromLeaves q.samples ndKeyF (onedDurF q) (onedLeaves q) 0 []
      difference_samples := dictFromLeaves q.samples ndKeyF (onedDiffF q) (onedLeaves q) 0 []
      tIdx := q.sigmas.length * (q.alphas.length * (q.sizes_of_sample.length * q.samples))
      oracleCalls := q.sigmas.length * (q.alphas.length * q.sizes_of_sample.length)
      callLog := [] } := by
  rw [complete_test_1D]
  have hsig : ∀ (sigmas : List V) (st : NDState V), st.cur = "" →
      sigmas.foldl (fun st sigma =>
        q.alphas.foldl (fun st alpha =>
          q.sizes_of_sample.foldl
            (fun st size_sample => oned_cell q sigma alpha size_sample st) st) st) st =
      { st with
        lines := st.lines ++
          rowsFromLeaves q.samples (onedLineF q)
            (sigmas.flatMap (fun sigma =>
              q.alphas.flatMap (fun alpha =>
                q.sizes_of_sample.map (fun size_sample => (sigma, alpha, size_sample)))))
            st.tIdx
        cur := ""
        tIdx := st.tIdx +
          sigmas.length * (q.alphas.length * (q.sizes_of_sample.length * q.samples))
        oracleCalls := st.oracleCalls + sigmas.length * (q.alphas.length * q.sizes_of_sample.length)
        entropy_samples :=
          dictFromLeaves q.samples ndKeyF (onedEntF q)
            (sigmas.flatMap (fun sigma =>
              q.alphas.flatMap (fun alpha =>
                q.sizes_of_sample.map (fun size_sample => (sigma, alpha, size_sample)))))
            st.tIdx st.entropy_samples
        duration_samples :=
          dictFromLeaves q.samples ndKeyF (onedDurF q)
            (sigmas.flatMap (fun sigma =>
              q.alphas.flatMap (fun alpha =>
                q.sizes_of_sample.map (fun size_sample => (sigma, alpha, size_sample)))))
            st.tIdx st.duration_samples
        difference_samples :=
          dictFromLeaves q.samples ndKeyF (onedDiffF q)
            (sigmas.flatMap (fun sigma =>
              q.alphas.flatMap (fun alpha =>
                q.sizes_of_sample.map (fun size_sample => (sigma, alpha, size_sample)))))
            st.tIdx st.difference_samples } := by
    intro sigmas
    induction sigmas with
    | nil =>
        intro st h
        simp [rowsFromLeaves, dictFromLeaves]
        ext <;> simp [h]
    | cons sigma rest ih =>
        intro st h
        rw [List.foldl_cons, oned_alphas_spec q sigma q.alphas st h, ih _ (by simp)]
        have hap : ∀ (l1 l2 : List (V × V × ℕ)) (t0 : ℕ)
            (d : List ((V × ℕ × V) × List V)) (valF : (V × V × ℕ) → ℕ → List V),
            dictFromLeaves q.samples ndKeyF valF (l1 ++ l2) t0 d =
              dictFromLeaves q.samples ndKeyF valF l2 (t0 + l1.length * q.samples)
                (dictFromLeaves q.samples ndKeyF valF l1 t0 d) := by
          intro l1 l2 t0 d valF
          rw [← dictTransFrom_eq_dictFromLeaves q.samples
            (fun x t0 d => dictSet d (ndKeyF x) (valF x t0)) ndKeyF valF (fun _ _ _ => rfl),
            dictTransFrom_append,
            dictTransFrom_eq_dictFromLeaves q.samples
              (fun x t0 d => dictSet d (ndKeyF x) (valF x t0)) ndKeyF valF (fun _ _ _ => rfl),
            dictTransFrom_eq_dictFromLeaves q.samples
              (fun x t0 d => dictSet d (ndKeyF x) (valF x t0)) ndKeyF valF (fun _ _ _ => rfl)]
        have hl : (q.alphas.flatMap (fun alpha =>
            q.sizes_of_sample.map (fun size_sample => (sigma, alpha, size_sample)))).length =
            q.alphas.length * q.sizes_of_sample.length :=
          length_flatMap_const _ _ _ (fun a => by simp)
        ext <;>
          simp [List.flatMap_cons, rowsFromLeaves_append, hap, hl, List.length_map,
            List.append_assoc, Nat.mul_assoc] <;>
          ring
  rw [hsig q.sigmas (NDState.initial V) rfl]
  ext <;> simp [NDState.initial, onedLeaves]

/-! ### Key-order lemmas for the accumulation dictionaries -/

lemma dictSet_fresh {K A : Type} [DecidableEq K] (d : List (K × A)) (k : K) (a : A)
    (h : k ∉ d.map Prod.fst) : dictSet d k a = d ++ [(k, a)] := by
  induction d with
  | nil => simp [dictSet]
  | cons x rest ih =>
      obtain ⟨k', a'⟩ := x
      simp only [List.map_cons, List.mem_cons, not_or] at h
      simp [dictSet, Ne.symm h.1, ih h.2]

/-- The association list a run of fresh-keyed leaves accumulates. -/
def assocFromLeaves {K A L : Type} (c : ℕ) (keyF : L → K) (valF : L → ℕ → A) :
    List L → ℕ → List (K × A)
  | [], _ => []
  | x :: rest, t0 => (keyF x, valF x t0) :: assocFromLeaves c keyF valF rest (t0 + c)

lemma assocFromLeaves_map_fst {K A L : Type} (c : ℕ) (keyF : L → K)
    (valF : L → ℕ → A) (l : List L) : ∀ t0 : ℕ,
      (assocFromLeaves c keyF valF l t0).map Prod.fst = l.map keyF := by
  induction l with
  | nil => intro t0; simp [assocFromLeaves]
  | cons x rest ih => intro t0; simp [assocFromLeaves, ih]

lemma assocFromLeaves_length {K A L : Type} (c : ℕ) (keyF : L → K)
    (valF : L → ℕ → A) (l : List L) : ∀ t0 : ℕ,
      (assocFromLeaves c keyF valF l t0).length = l.length := by
  induction l with
  | nil => intro t0; simp [assocFromLeaves]
  | cons x rest ih => intro t0; simp [assocFromLeaves, ih]

/-- With pairwise-distinct leaf keys that are absent from the starting dict,
a leaf run appends one entry per leaf, in leaf order, and removes nothing. -/
lemma dictFromLeaves_fresh {K A L : Type} [DecidableEq K] (c : ℕ) (keyF : L → K)
    (valF : L → ℕ → A) (l : List L) :
    ∀ (t0 : ℕ) (d : List (K × A)), (l.map keyF).Nodup →
      (∀ x ∈ l, keyF x ∉ d.map Prod.fst) →
      dictFromLeaves c keyF valF l t0 d = d ++ assocFromLeaves c keyF valF l t0 := by
  induction l with
  | nil => intro t0 d _ _; simp [dictFromLeaves, assocFromLeaves]
  | cons x rest ih =>
      intro t0 d hnd hfresh
      rw [dictFromLeaves, dictSet_fresh d (keyF x) _ (hfresh x (by simp)),
        ih _ _ (by simpa using hnd.of_cons)]
      · simp [assocFromLeaves]
      · intro y hy
        simp only [List.map_append, List.map_cons, List.mem_append, List.map_nil]
        rintro (hmem | hmem)
        · exact hfresh y (by simp [hy]) hmem
        · simp only [List.mem_cons, List.not_mem_nil, or_false] at hmem
          have := (List.nodup_cons.mp hnd).1
          exact this (hmem ▸ List.mem_map_of_mem keyF hy)

lemma dictFromLeaves_singleton {K A L : Type} [DecidableEq K] (c : ℕ)
    (keyF : L → K) (valF : L → ℕ → A) (x : L) (t0 : ℕ) (d : List (K × A)) :
    dictFromLeaves c keyF valF [x] t0 d = dictSet d (keyF x) (valF x t0) := rfl

/-! ### Tab- and space-separated field structure of the report lines -/

/-- Concatenation of tab-terminated fields. -/
def tabCat : List String → String
  | [] => ""
  | a :: l => a ++ "\t" ++ tabCat l

lemma tabCat_append (xs ys : List String) :
    tabCat (xs ++ ys) = tabCat xs ++ tabCat ys := by
  induction xs with
  | nil => simp [tabCat]
  | cons a rest ih => simp [tabCat, ih, String.append_assoc]

lemma tabJoin_cons_ne (a : String) (l : List String) (h : l ≠ []) :
    tabJoin (a :: l) = a ++ "\t" ++ tabJoin l := by
  cases l with
  | nil => exact absurd rfl h
  | cons b rest => rfl

lemma tabCat_eq_tabJoin (a : String) (l : List String) :
    tabCat (a :: l) = tabJoin (a :: l) ++ "\t" := by
  induction l generalizing a with
  | nil => simp [tabCat, tabJoin, String.append_assoc]
  | cons b rest ih =>
      rw [tabCat, ih b, tabJoin_cons_ne a (b :: rest) (by simp)]
      simp [String.append_assoc]

lemma tabCat_append_tabJoin (xs : List String) (y : String) (ys : List String) :
    tabCat xs ++ tabJoin (y :: ys) = tabJoin (xs ++ y :: ys) := by
  induction xs with
  | nil => simp [tabCat]
  | cons a rest ih =>
      rw [tabCat, List.cons_append, tabJoin_cons_ne a (rest ++ y :: ys) (by simp), ← ih,
        String.append_assoc, String.append_assoc]

/-- The five leading header columns. -/
def nd_base_fields : List String :=
  ["dimension", "alpha", "sample size", "sigma", "theoretical value"]

/-- The 7 labelled statistic columns of a requested neighbor index. -/
def nd_group_fields (index : ℕ) : List String :=
  ["mean Renyi entropy " ++ toString index, "std Renyi entropy " ++ toString index,
   "mean computer time " ++ toString index, "std computer time " ++ toString index,
   "mean difference " ++ toString index, "std of difference " ++ toString index,
   "3rd moment of difference " ++ toString index]

/-- The final unlabelled group of 7 statistic columns. -/
def nd_tail_fields : List String :=
  ["mean Renyi entropy", "std Renyi entropy", "mean computer time",
   "std computer time", "mean difference", "std of difference",
   "3rd moment of difference"]

/-- All header columns of an N-D report. -/
def ndHeaderFields (indices : List ℕ) : List String :=
  nd_base_fields ++ indices.flatMap nd_group_fields ++ nd_tail_fields

lemma nd_header_group_eq_tabCat (index : ℕ) :
    nd_header_group index = tabCat (nd_group_fields index) := by
  apply String.ext
  simp only [nd_header_group, nd_group_fields, tabCat, String.data_append,
    List.append_assoc]
  rfl

lemma nd_groups_cat_eq_tabCat (l : List ℕ) :
    nd_groups_cat l = tabCat (l.flatMap nd_group_fields) := by
  induction l with
  | nil => rfl
  | cons i rest ih =>
      rw [nd_groups_cat, List.flatMap_cons, tabCat_append, ih,
        nd_header_group_eq_tabCat]

/-- The N-D header line is exactly the tab-join of its column names: five
base columns, 7 labelled columns per requested index, and a final unlabelled
7-column group. -/
lemma ndHeaderLine_eq_tabJoin (indices : List ℕ) :
    ndHeaderLine indices = tabJoin (ndHeaderFields indices) := by
  have hbase : "dimension\talpha\tsample size\tsigma\ttheoretical value\t" =
      tabCat nd_base_fields := rfl
  have htail : nd_header_tail = tabJoin nd_tail_fields := rfl
  rw [ndHeaderLine, hbase, htail, nd_groups_cat_eq_tabCat, ← tabCat_append,
    show nd_tail_fields = "mean Renyi entropy" :: ["std Renyi entropy",
      "mean computer time", "std computer time", "mean difference",
      "std of difference", "3rd moment of difference"] from rfl,
    tabCat_append_tabJoin]
  rfl

/-- The 7 statistic fields of one pass cell. -/
def nd_cell_fields {V δ : Type} [Field V] (p : NDParams V δ) (msig : NPMatrix V)
    (theo alpha : V) (size_sample : ℕ) (indices_to_use : List ℕ) (t0 : ℕ) :
    List String :=
  let es := segF (nd_est_at p msig alpha size_sample indices_to_use) t0 p.samples
  let ds := segF (nd_dur_at p) t0 p.samples
  let fs := segF (fun t => theo - nd_est_at p msig alpha size_sample indices_to_use t) t0 p.samples
  [showStat p.showV (np_mean es), showStat p.showV (np_std p.sqrtV es),
   showStat p.showV (np_mean ds), showStat p.showV (np_std p.sqrtV ds),
   showStat p.showV (np_mean fs), showStat p.showV (np_std p.sqrtV fs),
   showStat p.showV (stat_moment3 fs)]

lemma nd_cell_str_eq_tabCat {V δ : Type} [Field V] (p : NDParams V δ)
    (msig : NPMatrix V) (theo alpha : V) (size_sample : ℕ)
    (indices_to_use : List ℕ) (t0 : ℕ) :
    nd_cell_str p msig theo alpha size_sample indices_to_use t0 =
      tabCat (nd_cell_fields p msig theo alpha size_sample indices_to_use t0) := by
  apply String.ext
  simp only [nd_cell_str, nd_cell_fields, tabCat, String.data_append, List.append_assoc]
  rfl

/-- The statistic fields of all passes of one leaf, in pass order. -/
def nd_cells_fields {V δ : Type} [Field V] (p : NDParams V δ) (msig : NPMatrix V)
    (theo alpha : V) (size_sample : ℕ) : List (List ℕ) → ℕ → List String
  | [], _ => []
  | indices_to_use :: rest, t0 =>
      nd_cell_fields p msig theo alpha size_sample indices_to_use t0 ++
        nd_cells_fields p msig theo alpha size_sample rest (t0 + p.samples)

lemma nd_cells_cat_eq_tabCat {V δ : Type} [Field V] (p : NDParams V δ)
    (msig : NPMatrix V) (theo alpha : V) (size_sample : ℕ) (L : List (List ℕ)) :
    ∀ t0 : ℕ,
      nd_cells_cat p msig theo alpha size_sample L t0 =
        tabCat (nd_cells_fields p msig theo alpha size_sample L t0) := by
  induction L with
  | nil => intro t0; rfl
  | cons x rest ih =>
      intro t0
      rw [nd_cells_cat, nd_cells_fields, tabCat_append, ih, nd_cell_str_eq_tabCat]

lemma nd_cells_fields_length {V δ : Type} [Field V] (p : NDParams V δ)
    (msig : NPMatrix V) (theo alpha : V) (size_sample : ℕ) (L : List (List ℕ)) :
    ∀ t0 : ℕ,
      (nd_cells_fields p msig theo alpha size_sample L t0).length = 7 * L.length := by
  induction L with
  | nil => intro t0; rfl
  | cons x rest ih =>
      intro t0
      rw [nd_cells_fields, List.length_append, ih]
      simp [nd_cell_fields]
      ring

/-- All fields of one data row: the five leading values, then 7 statistics
per pass. -/
def nd_row_fields {V δ : Type} [Field V] [DecidableEq V] (p : NDParams V δ)
    (sigma_skeleton : NPMatrix V) (leaf : V × V × ℕ) (t0 : ℕ) : List String :=
  [toString sigma_skeleton.rows, p.showV leaf.2.1, toString leaf.2.2,
   p.showV leaf.1, p.showV (nd_theo p sigma_skeleton leaf.1 leaf.2.1)] ++
  nd_cells_fields p (NPMatrix.smul leaf.1 sigma_skeleton)
    (nd_theo p sigma_skeleton leaf.1 leaf.2.1) leaf.2.1 leaf.2.2
    (nd_real_indeces p) t0

/-- Every N-D data row is the tab-join of its `5 + 7 * (k + 1)` fields,
followed by one trailing tab. -/
lemma ndLineF_eq_tabJoin {V δ : Type} [Field V] [DecidableEq V] (p : NDParams V δ)
    (sigma_skeleton : NPMatrix V) (leaf : V × V × ℕ) (t0 : ℕ) :
    ndLineF p sigma_skeleton leaf t0 =
      tabJoin (nd_row_fields p sigma_skeleton leaf t0) ++ "\t" ∧
    (nd_row_fields p sigma_skeleton leaf t0).length =
      5 + 7 * (p.indices_to_use.length + 1) := by
  constructor
  · have hpre : nd_row_lead p sigma_skeleton.rows leaf.1 leaf.2.1
        (nd_theo p sigma_skeleton leaf.1 leaf.2.1) leaf.2.2 =
        tabCat [toString sigma_skeleton.rows, p.showV leaf.2.1, toString leaf.2.2,
          p.showV leaf.1, p.showV (nd_theo p sigma_skeleton leaf.1 leaf.2.1)] := by
      apply String.ext
      simp only [nd_row_lead, tabCat, String.data_append, List.append_assoc]
      rfl
    rw [ndLineF, hpre, nd_cells_cat_eq_tabCat, ← tabCat_append, nd_row_fields]
    simp only [List.cons_append, List.nil_append]
    rw [tabCat_eq_tabJoin]
  · rw [nd_row_fields, List.length_append, nd_cells_fields_length]
    simp [nd_real_indeces]

/-- Every 1-D data row is the space-join of its 9 fields (alpha, sample
size, sigma, then mean and std of entropy, duration and difference). -/
lemma onedLineF_eq_spaceJoin {V δ : Type} [Field V] (q : OneDParams V δ)
    (leaf : V × V × ℕ) (t0 : ℕ) :
    onedLineF q leaf t0 =
      spaceJoin [q.showV leaf.2.1, toString leaf.2.2, q.showV leaf.1,
        showStat q.showV (np_mean (onedEntF q leaf t0)),
        showStat q.showV (np_std q.sqrtV (onedEntF q leaf t0)),
        showStat q.showV (np_mean (onedDurF q leaf t0)),
        showStat q.showV (np_std q.sqrtV (onedDurF q leaf t0)),
        showStat q.showV (np_mean (onedDiffF q leaf t0)),
        showStat q.showV (np_std q.sqrtV (onedDiffF q leaf t0))] := by
  apply String.ext
  simp only [onedLineF, spaceJoin, String.data_append, List.append_assoc]

/-! ### Aggregation helper lemmas -/

lemma segF_const {V : Type} (f : ℕ → V) (c : V) (h : ∀ t, f t = c) :
    ∀ (t0 m : ℕ), segF f t0 m = List.replicate m c := by
  intro t0 m
  induction m generalizing t0 with
  | zero => simp [segF]
  | succ m ih => simp [segF, h, ih, List.replicate_succ]

lemma segF_map_sub {V : Type} [Field V] (f : ℕ → V) (theo : V) :
    ∀ (t0 m : ℕ),
      segF (fun t => theo - f t) t0 m = (segF f t0 m).map (fun e => theo - e) := by
  intro t0 m
  induction m generalizing t0 with
  | zero => simp [segF]
  | succ m ih => simp [segF, ih]

lemma np_mean_replicate {V : Type} [Field V] (m : ℕ) (c : V) (h : (m : V) ≠ 0) :
    np_mean (List.replicate m c) = some c := by
  have hm : m ≠ 0 := by rintro rfl; simp at h
  rw [np_mean]
  simp only [List.length_replicate, List.sum_replicate, nsmul_eq_mul]
  rw [if_neg hm, mul_comm, mul_div_cancel_right₀ _ h]

lemma np_std_replicate {V : Type} [Field V] (sqrtV : V → V) (m : ℕ) (c : V)
    (h : (m : V) ≠ 0) :
    np_std sqrtV (List.replicate m c) = some (sqrtV 0) := by
  rw [np_std, np_mean_replicate m c h]
  simp [List.map_replicate, List.sum_replicate]

/-! ### Concrete rational configurations used by witnesses and counterexamples -/

/-- A concrete adapter return structure whose entry at the inner key `0`
differs from its entry at every requested index set: `5` at key `0`,
`7` at any index-set key. -/
def estQ : Unit → List ℚ → List ℕ → EstRet ℚ :=
  fun _ _ _ => fun _ k =>
    match k with
    | Sum.inl 0 => 5
    | Sum.inl _ => 0
    | Sum.inr _ => 7

/-- A small concrete N-D configuration over ℚ: one sigma, one alpha, two
sample sizes, one requested index, one repeated trial. -/
def pQ : NDParams ℚ Unit :=
  { samples := 1
    alphas := [2]
    mu := 0
    sigmas := [1]
    sizes_of_sample := [3, 4]
    indices_to_use := [1]
    theoretical_value_function := fun _ _ _ => 9
    sample_generator := fun _ _ _ _ => ()
    sample_estimator := estQ
    determinant := none
    ptime := fun _ => 0
    sqrtV := fun x => x
    showV := fun _ => "v" }

/-- The same configuration with repeat count zero. -/
def pQ0 : NDParams ℚ Unit :=
  { pQ with samples := 0, sizes_of_sample := [3] }

/-- The 2-by-2 identity skeleton. -/
def skelQ : NPMatrix ℚ := np_identity 2

/-- A small concrete 1-D configuration over ℚ. -/
def qQ : OneDParams ℚ Unit :=
  { samples := 1
    alphas := [2]
    mu := 0
    sigmas := [1]
    sizes_of_sample := [3, 4]
    theoretical_value_function := fun _ _ => 9
    sample_generator := fun _ _ _ _ => ()
    sample_estimator := fun _ _ => 5
    ptime := fun _ => 0
    sqrtV := fun x => x
    showV := fun _ => "v" }

/-! ### The claims -/

/-- C1, counterexample: the Grid Sweep Driver does not read the Estimator
Adapter's returned structure at the requested index set.  With an adapter
returning `7` for every index-set key and `5` at the inner key `0`, the
value the driver records for the pass over the requested index set `[1]`
is `5`, not the adapter's value `7` for that index set. -/
theorem claim_C1_counterexample :
    estQ () [2] [1] 2 (Sum.inr [1]) = 7 ∧
    dictGetD (complete_test_ND pQ skelQ).entropy_samples (2, 3, 1) [] = [5] ∧
    (5 : ℚ) ≠ 7 := by decide

/-- C1, amended: for every multivariate-sweep trial the driver reads the
returned structure keyed first by the requested alpha and then at the fixed
inner key `0` (`entropy[alpha][0]`), regardless of the requested
index set; the recorded value of a pass is the adapter's entry at key `0`
for that alpha. -/
theorem claim_C1_theorem {V δ : Type} [Field V] [DecidableEq V]
    (p : NDParams V δ) (sigma_skeleton : NPMatrix V) :
    (complete_test_ND p sigma_skeleton).entropy_samples =
      dictFromLeaves (ndStride p) ndKeyF (ndEntF p sigma_skeleton) (ndLeaves p) 0 [] ∧
    (∀ (leaf : V × V × ℕ) (t0 : ℕ),
      ndEntF p sigma_skeleton leaf t0 =
        segF (fun t =>
          p.sample_estimator (p.sample_generator t p.mu
              (NPMatrix.smul leaf.1 sigma_skeleton) leaf.2.2)
            [leaf.2.1] p.indices_to_use leaf.2.1 (Sum.inl 0))
          (t0 + p.indices_to_use.length * p.samples) p.samples) := by
  refine ⟨?_, fun leaf t0 => rfl⟩
  simp only [complete_test_ND_spec]

/-- C3: data rows are emitted in nested-loop order, sigma outermost, then
alpha, then sample size innermost, one row per grid leaf, for both drivers,
and the insertion order of the accumulation-dict keys matches the same leaf
order (when the leaf keys are pairwise distinct). -/
theorem claim_C3_theorem {V δ : Type} [Field V] [DecidableEq V]
    (p : NDParams V δ) (sigma_skeleton : NPMatrix V) (q : OneDParams V δ)
    (hND : ((ndLeaves p).map ndKeyF).Nodup)
    (h1D : ((onedLeaves q).map ndKeyF).Nodup) :
    (complete_test_ND p sigma_skeleton).lines =
      ndHeaderLine p.indices_to_use ::
        rowsFromLeaves (ndStride p) (ndLineF p sigma_skeleton) (ndLeaves p) 0 ∧
    (complete_test_ND p sigma_skeleton).entropy_samples.map Prod.fst =
      (ndLeaves p).map ndKeyF ∧
    (complete_test_1D q).lines =
      rowsFromLeaves q.samples (onedLineF q) (onedLeaves q) 0 ∧
    (complete_test_1D q).entropy_samples.map Prod.fst = (onedLeaves q).map ndKeyF ∧
    ndLeaves p = p.sigmas.flatMap (fun sigma =>
      p.alphas.flatMap (fun alpha =>
        p.sizes_of_sample.map (fun size_sample => (sigma, alpha, size_sample)))) ∧
    onedLeaves q = q.sigmas.flatMap (fun sigma =>
      q.alphas.flatMap (fun alpha =>
        q.sizes_of_sample.map (fun size_sample => (sigma, alpha, size_sample)))) := by
  refine ⟨?_, ?_, ?_, ?_, rfl, rfl⟩
  · simp only [complete_test_ND_spec]
  · simp only [complete_test_ND_spec]
    rw [dictFromLeaves_fresh _ _ _ _ _ _ hND (by simp)]
    simp [assocFromLeaves_map_fst]
  · simp only [complete_test_1D_spec]
  · simp only [complete_test_1D_spec]
    rw [dictFromLeaves_fresh _ _ _ _ _ _ h1D (by simp)]
    simp [assocFromLeaves_map_fst]

/-- C3, witness configuration check. -/
theorem claim_C3_witness :
    ((ndLeaves pQ).map ndKeyF).Nodup ∧ ((onedLeaves qQ).map ndKeyF).Nodup ∧
    (complete_test_ND pQ skelQ).entropy_samples.map Prod.fst =
      (ndLeaves pQ).map ndKeyF :=
  ⟨by decide, by decide,
    (claim_C3_theorem pQ skelQ qQ (by decide) (by decide)).2.1⟩

/-- C4: the oracle is evaluated once per `(sigma, alpha)` pair by the N-D
driver and once per grid cell by the 1-D driver — in both cases the number
of oracle invocations does not depend on the repeat count `samples`, so the
oracle is never invoked inside the repeated-trial loop; and every per-trial
difference of a cell is formed against the one shared oracle value of the
cell. -/
theorem claim_C4_theorem {V δ : Type} [Field V] [DecidableEq V]
    (p : NDParams V δ) (sigma_skeleton : NPMatrix V) (q : OneDParams V δ) :
    (complete_test_ND p sigma_skeleton).oracleCalls =
      p.sigmas.length * p.alphas.length ∧
    (complete_test_1D q).oracleCalls =
      q.sigmas.length * (q.alphas.length * q.sizes_of_sample.length) ∧
    (complete_test_ND p sigma_skeleton).difference_samples =
      dictFromLeaves (ndStride p) ndKeyF (ndDiffF p sigma_skeleton) (ndLeaves p) 0 [] ∧
    (∀ (leaf : V × V × ℕ) (t0 : ℕ),
      ndDiffF p sigma_skeleton leaf t0 =
        (ndEntF p sigma_skeleton leaf t0).map
          (fun e => nd_theo p sigma_skeleton leaf.1 leaf.2.1 - e)) ∧
    (complete_test_1D q).difference_samples =
      dictFromLeaves q.samples ndKeyF (onedDiffF q) (onedLeaves q) 0 [] ∧
    (∀ (leaf : V × V × ℕ) (t0 : ℕ),
      onedDiffF q leaf t0 =
        (onedEntF q leaf t0).map
          (fun e => q.theoretical_value_function leaf.1 leaf.2.1 - e)) := by
  refine ⟨?_, ?_, ?_, fun leaf t0 => ?_, ?_, fun leaf t0 => ?_⟩
  · simp only [complete_test_ND_spec]
  · simp only [complete_test_1D_spec]
  · simp only [complete_test_ND_spec]
  · rw [ndDiffF, ndEntF, segF_map_sub]
  · simp only [complete_test_1D_spec]
  · rw [onedDiffF, onedEntF, segF_map_sub]

/-- C5: per grid leaf (hence per sample size), the estimator is invoked on
each requested single-index set in the given order and then on the combined
requested index tuple, which is appended last and evaluated exactly once as
the final pass. -/
theorem claim_C5_theorem {V δ : Type} [Field V] [DecidableEq V]
    (p : NDParams V δ) (sigma_skeleton : NPMatrix V) :
    (complete_test_ND p sigma_skeleton).callLog =
      (ndLeaves p).flatMap (fun _ => ndLeafLog p) ∧
    ndLeafLog p = (nd_real_indeces p).flatMap (List.replicate p.samples) ∧
    nd_real_indeces p = p.indices_to_use.map (fun i => [i]) ++ [p.indices_to_use] ∧
    (nd_real_indeces p).getLast? = some p.indices_to_use := by
  refine ⟨?_, rfl, rfl, ?_⟩
  · simp only [complete_test_ND_spec]
  · rw [nd_real_indeces]
    exact List.getLast?_concat _

/-- C2, counterexample: a report produced by the 1-D sweep driver does not
begin with a header line.  Its first line is already a data row; that row
contains no tab character at all (so it cannot consist of two or more
tab-separated columns) and it does not start with the mandated first column
name `dimension`. -/
theorem claim_C2_counterexample :
    (complete_test_1D qQ).lines.head? = some "v 3 v v v v v v v" ∧
    ¬ ('\t' ∈ "v 3 v v v v v v v".data) ∧
    List.isPrefixOf "dimension".data "v 3 v v v v v v v".data = false := by
  decide

/-- C2, amended: every N-D report begins with exactly one header line whose
tab-joined columns are `dimension, alpha, sample size, sigma, theoretical
value`, followed by 7 labelled statistic columns per requested index and a
final unlabelled 7-column group; each subsequent line is one grid leaf whose
`5 + 7 * (k + 1)` fields are tab-separated (with a trailing tab).  A 1-D
report, in contrast, has no header line: every line is a data row of 9
space-separated fields. -/
theorem claim_C2_theorem {V δ : Type} [Field V] [DecidableEq V]
    (p : NDParams V δ) (sigma_skeleton : NPMatrix V) (q : OneDParams V δ) :
    (complete_test_ND p sigma_skeleton).lines =
      ndHeaderLine p.indices_to_use ::
        rowsFromLeaves (ndStride p) (ndLineF p sigma_skeleton) (ndLeaves p) 0 ∧
    ndHeaderLine p.indices_to_use = tabJoin (ndHeaderFields p.indices_to_use) ∧
    (∀ (leaf : V × V × ℕ) (t0 : ℕ),
      ndLineF p sigma_skeleton leaf t0 =
        tabJoin (nd_row_fields p sigma_skeleton leaf t0) ++ "\t" ∧
      (nd_row_fields p sigma_skeleton leaf t0).length =
        5 + 7 * (p.indices_to_use.length + 1)) ∧
    (complete_test_1D q).lines =
      rowsFromLeaves q.samples (onedLineF q) (onedLeaves q) 0 ∧
    (∀ (leaf : V × V × ℕ) (t0 : ℕ),
      onedLineF q leaf t0 =
        spaceJoin [q.showV leaf.2.1, toString leaf.2.2, q.showV leaf.1,
          showStat q.showV (np_mean (onedEntF q leaf t0)),
          showStat q.showV (np_std q.sqrtV (onedEntF q leaf t0)),
          showStat q.showV (np_mean (onedDurF q leaf t0)),
          showStat q.showV (np_std q.sqrtV (onedDurF q leaf t0)),
          showStat q.showV (np_mean (onedDiffF q leaf t0)),
          showStat q.showV (np_std q.sqrtV (onedDiffF q leaf t0))]) := by
  refine ⟨?_, ndHeaderLine_eq_tabJoin _,
    fun leaf t0 => ndLineF_eq_tabJoin p sigma_skeleton leaf t0, ?_,
    fun leaf t0 => onedLineF_eq_spaceJoin q leaf t0⟩
  · simp only [complete_test_ND_spec]
  · simp only [complete_test_1D_spec]

/-- C7, counterexample: with repeat count `0`, the N-D driver still writes
the cell's data row (the report of a one-leaf sweep has 2 lines: the header
and the leaf's row), because NumPy aggregation of the empty outcome list
returns NaN instead of raising an error. -/
theorem claim_C7_counterexample :
    (complete_test_ND pQ0 skelQ).lines.length = 2 ∧
    np_mean ([] : List ℚ) = none := by decide

/-- C7, amended: when a cell's repeat count is `0` the outcome lists stay
empty, NumPy-style aggregation yields NaN (`none`) rather than raising, the
driver writes each statistic field as the string `nan`, and the data row of
every grid leaf is still written to the report. -/
theorem claim_C7_theorem {V δ : Type} [Field V] [DecidableEq V]
    (p : NDParams V δ) (sigma_skeleton : NPMatrix V) (h : p.samples = 0) :
    (complete_test_ND p sigma_skeleton).lines =
      ndHeaderLine p.indices_to_use ::
        rowsFromLeaves (ndStride p) (ndLineF p sigma_skeleton) (ndLeaves p) 0 ∧
    (∀ (msig : NPMatrix V) (theo alpha : V) (size_sample : ℕ)
        (indices_to_use : List ℕ) (t0 : ℕ),
      nd_cell_str p msig theo alpha size_sample indices_to_use t0 =
        "nan\tnan\tnan\tnan\tnan\tnan\tnan\t") ∧
    np_mean ([] : List V) = none := by
  refine ⟨?_, ?_, rfl⟩
  · simp only [complete_test_ND_spec]
  · intro msig theo alpha size_sample indices_to_use t0
    rw [nd_cell_str]
    simp only [h, segF]
    rfl

/-- C7, witness. -/
theorem claim_C7_witness :
    pQ0.samples = 0 ∧ np_mean ([] : List ℚ) = none :=
  ⟨rfl, (claim_C7_theorem pQ0 skelQ rfl).2.2⟩

/-- C8, counterexample: after a two-cell sweep both cells' outcome lists are
still present in the accumulation dictionary — the first cell's list is not
destroyed when its aggregate is written, so the dictionaries grow with the
number of completed cells. -/
theorem claim_C8_counterexample :
    (complete_test_ND pQ skelQ).entropy_samples =
      [((2, 3, 1), [5]), ((2, 4, 1), [5])] ∧
    (complete_test_ND pQ skelQ).entropy_samples.length = 2 := by decide

/-- C8, amended: the accumulation lists are never removed.  At the end of a
sweep with pairwise-distinct cell keys, each of the three dictionaries holds
exactly one entry per grid leaf, in leaf order (each entry being the
outcome lists of the leaf's last index-set pass), so memory grows with the
number of completed cells rather than being bounded by a single cell. -/
theorem claim_C8_theorem {V δ : Type} [Field V] [DecidableEq V]
    (p : NDParams V δ) (sigma_skeleton : NPMatrix V)
    (hND : ((ndLeaves p).map ndKeyF).Nodup) :
    (complete_test_ND p sigma_skeleton).entropy_samples =
      assocFromLeaves (ndStride p) ndKeyF (ndEntF p sigma_skeleton) (ndLeaves p) 0 ∧
    (complete_test_ND p sigma_skeleton).entropy_samples.length = (ndLeaves p).length ∧
    (complete_test_ND p sigma_skeleton).duration_samples.length = (ndLeaves p).length ∧
    (complete_test_ND p sigma_skeleton).difference_samples.length = (ndLeaves p).length := by
  refine ⟨?_, ?_, ?_, ?_⟩ <;> simp only [complete_test_ND_spec] <;>
    rw [dictFromLeaves_fresh _ _ _ _ _ _ hND (by simp)] <;>
    simp [assocFromLeaves_length]

/-- C8, witness. -/
theorem claim_C8_witness :
    ((ndLeaves pQ).map ndKeyF).Nodup ∧
    (complete_test_ND pQ skelQ).entropy_samples.length = (ndLeaves pQ).length :=
  ⟨by decide, (claim_C8_theorem pQ skelQ (by decide)).2.1⟩

/-- C6: a sweep with `sigmas=[1]`, `alphas=[1]`, `sample_sizes=[1000]`,
`repeat_count=5`, the 1-D Gaussian oracle, and a stub estimator that always
returns the true oracle value exactly, yields an aggregate record with
`mean_difference = 0`, `std_difference = 0`, and `mean_entropy` equal to the
oracle value `oracle(Gaussian(1-D, 1), alpha=1) = log2(2 pi e)/2`, i.e.
`Real.log (2 * pi * e) / Real.log 2 / 2` over the reals (instantiate `log2`
with `fun x => Real.log x / Real.log 2`, `pival := Real.pi`,
`euler := Real.exp 1`, `sqrtV := Real.sqrt`). -/
theorem claim_C6_theorem (δ : Type) (gen : ℕ → ℝ → ℝ → ℕ → δ) (ptime : ℕ → ℝ)
    (showV : ℝ → String) :
    np_mean (dictGetD (complete_test_1D
      { samples := 5, alphas := [1], mu := 0, sigmas := [1], sizes_of_sample := [1000]
        theoretical_value_function := fun sigma alpha =>
          Renyi_normal_distribution_1D (fun x => Real.log x / Real.log 2)
            Real.pi (Real.exp 1) sigma alpha
        sample_generator := gen
        sample_estimator := fun _ alpha =>
          Renyi_normal_distribution_1D (fun x => Real.log x / Real.log 2)
            Real.pi (Real.exp 1) 1 alpha
        ptime := ptime, sqrtV := Real.sqrt, showV := showV }).difference_samples
      (1, 1000, 1) []) = some 0 ∧
    np_std Real.sqrt (dictGetD (complete_test_1D
      { samples := 5, alphas := [1], mu := 0, sigmas := [1], sizes_of_sample := [1000]
        theoretical_value_function := fun sigma alpha =>
          Renyi_normal_distribution_1D (fun x => Real.log x / Real.log 2)
            Real.pi (Real.exp 1) sigma alpha
        sample_generator := gen
        sample_estimator := fun _ alpha =>
          Renyi_normal_distribution_1D (fun x => Real.log x / Real.log 2)
            Real.pi (Real.exp 1) 1 alpha
        ptime := ptime, sqrtV := Real.sqrt, showV := showV }).difference_samples
      (1, 1000, 1) []) = some 0 ∧
    np_mean (dictGetD (complete_test_1D
      { samples := 5, alphas := [1], mu := 0, sigmas := [1], sizes_of_sample := [1000]
        theoretical_value_function := fun sigma alpha =>
          Renyi_normal_distribution_1D (fun x => Real.log x / Real.log 2)
            Real.pi (Real.exp 1) sigma alpha
        sample_generator := gen
        sample_estimator := fun _ alpha =>
          Renyi_normal_distribution_1D (fun x => Real.log x / Real.log 2)
            Real.pi (Real.exp 1) 1 alpha
        ptime := ptime, sqrtV := Real.sqrt, showV := showV }).entropy_samples
      (1, 1000, 1) []) =
      some (Real.log (2 * Real.pi * Real.exp 1) / Real.log 2 / 2) := by
  have h5 : ((5 : ℕ) : ℝ) ≠ 0 := by norm_num
  simp only [complete_test_1D_spec]
  have hleaf : onedLeaves
      (V := ℝ) (δ := δ)
      { samples := 5, alphas := [1], mu := 0, sigmas := [1], sizes_of_sample := [1000]
        theoretical_value_function := fun sigma alpha =>
          Renyi_normal_distribution_1D (fun x => Real.log x / Real.log 2)
            Real.pi (Real.exp 1) sigma alpha
        sample_generator := gen
        sample_estimator := fun _ alpha =>
          Renyi_normal_distribution_1D (fun x => Real.log x / Real.log 2)
            Real.pi (Real.exp 1) 1 alpha
        ptime := ptime, sqrtV := Real.sqrt, showV := showV } = [(1, 1, 1000)] := by
    simp [onedLeaves]
  rw [hleaf]
  simp only [dictFromLeaves_singleton, ndKeyF, dictGetD_dictSet]
  have hent : ∀ t : ℕ,
      oned_est_at (V := ℝ) (δ := δ)
        { samples := 5, alphas := [1], mu := 0, sigmas := [1], sizes_of_sample := [1000]
          theoretical_value_function := fun sigma alpha =>
            Renyi_normal_distribution_1D (fun x => Real.log x / Real.log 2)
              Real.pi (Real.exp 1) sigma alpha
          sample_generator := gen
          sample_estimator := fun _ alpha =>
            Renyi_normal_distribution_1D (fun x => Real.log x / Real.log 2)
              Real.pi (Real.exp 1) 1 alpha
          ptime := ptime, sqrtV := Real.sqrt, showV := showV } 1 1 1000 t =
        Real.log (2 * Real.pi * Real.exp 1) / Real.log 2 / 2 := by
    intro t
    simp [oned_est_at, Renyi_normal_distribution_1D]
  refine ⟨?_, ?_, ?_⟩
  · rw [onedDiffF, segF_const _ 0 (fun t => by
      rw [hent t]; simp [Renyi_normal_distribution_1D])]
    exact np_mean_replicate 5 0 h5
  · rw [onedDiffF, segF_const _ 0 (fun t => by
      rw [hent t]; simp [Renyi_normal_distribution_1D])]
    have hz := np_std_replicate Real.sqrt 5 (0 : ℝ) h5
    rw [Real.sqrt_zero] at hz
    exact hz
  · rw [onedEntF,
      segF_const _ (Real.log (2 * Real.pi * Real.exp 1) / Real.log 2 / 2) hent]
    exact np_mean_replicate 5 _ h5

/-- C9: an unrecognized `correlation_type` or `noise_type` makes the main
block raise `SystemExit` with a non-empty message before any sweep runs
(the returned value is the error, so no driver call ever happened), and the
process exit status is the non-zero value 1. -/
theorem claim_C9_theorem {V δ : Type} [Field V] [DecidableEq V]
    (correlation_type noise_type : String) (correlation : V)
    (dimensions : List ℕ) (base : NDParams V δ)
    (h : correlation_type ∉ correlation_types ∨ noise_type ∉ noise_types) :
    main_run correlation_type noise_type correlation dimensions base =
      Except.error (PyErr.systemExit "Wrong type correlation type") ∧
    exit_status (main_run correlation_type noise_type correlation dimensions base) = 1 ∧
    "Wrong type correlation type" ≠ "" := by
  have hmr : main_run correlation_type noise_type correlation dimensions base =
      Except.error (PyErr.systemExit "Wrong type correlation type") := by
    rcases h with h | h
    · rw [main_run, if_neg h]
    · rw [main_run]
      by_cases hc : correlation_type ∈ correlation_types
      · rw [if_pos hc, if_neg h]
      · rw [if_neg hc]
  refine ⟨hmr, ?_, by decide⟩
  rw [hmr]
  rfl

/-- C9, witness. -/
theorem claim_C9_witness :
    ("bogus" ∉ correlation_types ∨ "gaussian" ∉ noise_types) ∧
    main_run "bogus" "gaussian" (0 : ℚ) [2] pQ =
      Except.error (PyErr.systemExit "Wrong type correlation type") :=
  ⟨Or.inl (by decide),
    ( claim_C9_theorem "bogus" "gaussian" (0 : ℚ) [2] pQ (Or.inl (by decide))).1⟩

/-- C10: `strongly_correlated` passes the command-line validation, yet the
main block then leaves `sigma_skeleton` as `None` and hands it to
`complete_test_ND`, whose first statement reads `sigma_skeleton.shape[0]`
before the report file is opened — so every run with at least one dimension
fails with `AttributeError` before any report line is produced or any grid
cell evaluated, with a non-zero exit status. -/
theorem claim_C10_theorem {V δ : Type} [Field V] [DecidableEq V]
    (correlation : V) (dimensions : List ℕ) (base : NDParams V δ) (dim : ℕ) :
    "strongly_correlated" ∈ correlation_types ∧
    (select_sigma_skeleton "strongly_correlated" correlation dim).1 = none ∧
    (∀ pp : NDParams V δ,
      complete_test_ND_py pp none = Except.error PyErr.attributeError) ∧
    main_run "strongly_correlated" "gaussian" correlation dimensions base =
      (if dimensions = [] then Except.ok [] else Except.error PyErr.attributeError) ∧
    exit_status (main_run "strongly_correlated" "gaussian" correlation dimensions base) =
      (if dimensions = [] then 0 else 1) := by
  have h1 : py_str_in "strongly_correlated" "identity" = false := by decide
  have h2 : py_str_in "strongly_correlated" "weakly_correlated" = false := by decide
  have h3 : py_str_in "strongly_correlated" "strongly_correlated" = true := by decide
  have hsel : ∀ d : ℕ,
      (select_sigma_skeleton (V := V) "strongly_correlated" correlation d).1 = none := by
    intro d
    rw [select_sigma_skeleton]
    simp [h1, h2, h3]
  have hmr : main_run (V := V) (δ := δ) "strongly_correlated" "gaussian"
      correlation dimensions base =
      (if dimensions = [] then Except.ok [] else Except.error PyErr.attributeError) := by
    rw [main_run, if_pos (by decide), if_pos (by decide)]
    cases dimensions with
    | nil => rfl
    | cons d rest =>
        rw [if_neg (by simp)]
        simp only [List.mapM_cons]
        rw [hsel d]
        rfl
  refine ⟨by decide, hsel dim, fun pp => rfl, hmr, ?_⟩
  rw [hmr]
  cases dimensions with
  | nil => rfl
  | cons d rest => rw [if_neg (by simp), if_neg (by simp)]; rfl

end Pyclits
